import Mathlib

/-!
# Pay-Cat-Template: the Keypay API client and the CD spreadsheet helpers

A shallow embedding of `src/Keypay.js` and `src/CD.js`.

Conventions of the embedding.

* The Apps Script services (`UrlFetchApp`, `Utilities`, `JSON`, `encodeURI`) are fields of a
  `Platform` record. `UrlFetchApp.fetch` is an oracle: its answer may depend on how many
  fetches were issued before, on the url and on the options; `none` means that it throws.
* Every operation that can reach the network threads the log of fetch calls issued so far and
  returns the new log next to its outcome, also when it throws, so that the number of fetch
  calls behind a thrown error can be counted.
* A thrown `Error` is `Except.error` of its message.
* `Logger.log` lines are not modelled.
* A JavaScript object is the list of its own properties in the order `for (var k in o)` visits
  them: names that are array indices first, in ascending numeric order, then every other name
  in the order of its creation. An assignment `o[k] = v` keeps that order. An object handed to
  a function is such a list as it stands.
* Objects are plain: the prototype of an object literal is `Object.prototype`, whose members are
  not visited by `for (var k in o)` but are found by a read `o[k]` of a name the object does not
  have itself; an assignment to the name `__proto__` reaches the inherited setter and adds no
  property.
-/

set_option autoImplicit false

namespace Js

/-! ## Objects -/

/-- The number a property name stands for when it is an array index: a decimal numeral without
leading zero, below `2 ^ 32 - 1`. -/
def arrayIndex? (k : String) : Option Nat :=
  if k.data.all Char.isDigit && !k.data.isEmpty
      && (k.data.length == 1 || k.data.head? != some '0') then
    if k.data.foldl (fun n c => 10 * n + (c.toNat - 48)) 0 < 4294967295 then
      some (k.data.foldl (fun n c => 10 * n + (c.toNat - 48)) 0)
    else none
  else none

/-- Whether a new property `k` is listed before an existing property `k1`: `k` is an array index
and `k1` is a greater array index or no array index. -/
def keyBefore (k k1 : String) : Bool :=
  match arrayIndex? k, arrayIndex? k1 with
  | some n, some m => n < m
  | some _, none => true
  | none, _ => false

/-- An object: its own properties in the order `for (var k in o)` visits them. -/
abbrev Obj (α : Type) := List (String × α)

/-- The own property names of an object, in visiting order. -/
def Obj.keys {α : Type} (o : Obj α) : List String := o.map Prod.fst

/-- The value of the own property `k` of an object: `none` when the object has no property `k`
itself. -/
def Obj.get? {α : Type} : Obj α → String → Option α
  | [], _ => none
  | (k1, v1) :: rest, k => if k1 = k then some v1 else Obj.get? rest k

/-- The creation or update of the own property `k`: an existing property keeps its place, a new
array index goes before the first greater array index or other name, any other new name goes
last. -/
def Obj.set {α : Type} : Obj α → String → α → Obj α
  | [], k, v => [(k, v)]
  | (k1, v1) :: rest, k, v =>
    if k1 = k then (k, v) :: rest
    else if keyBefore k k1 then (k, v) :: (k1, v1) :: rest
    else (k1, v1) :: Obj.set rest k v

/-- Visiting order: the names are pairwise distinct and no name comes after a name it is
listed before, so the array indices come first, ascending. -/
def Obj.Ordered {α : Type} (o : Obj α) : Prop :=
  o.keys.Pairwise (fun a b => a ≠ b ∧ keyBefore b a = false)

/-- The object built from the empty object by creating the given properties in that order, as
an object literal and a run of assignments do for names other than `__proto__`. -/
def Obj.ofInsertions {α : Type} (props : List (String × α)) : Obj α :=
  props.foldl (fun o kv => Obj.set o kv.1 kv.2) []

/-- The names of the members of `Object.prototype`, which a read finds on every plain object. -/
def objectPrototypeNames : List String :=
  ["constructor", "__defineGetter__", "__defineSetter__", "hasOwnProperty",
    "__lookupGetter__", "__lookupSetter__", "isPrototypeOf", "propertyIsEnumerable",
    "toString", "valueOf", "__proto__", "toLocaleString"]

/-- The string conversion of the member `name` of `Object.prototype`: the prototype object
itself for `__proto__`, the function `Object` for `constructor`, a native function of that name
otherwise. -/
def protoMemberText (name : String) : String :=
  if name = "__proto__" then "[object Object]"
  else if name = "constructor" then "function Object() \x7b [native code] \x7d"
  else "function " ++ name ++ "() \x7b [native code] \x7d"

end Js

namespace Keypay

/-! ## The platform -/

/-- An `HTTPResponse`: what `getResponseCode()` and the body text give. -/
structure Response where
  code : Int
  content : String
deriving DecidableEq, Repr

/-- The `options` object handed to `UrlFetchApp.fetch`. `authorization` is the value of the one
header, `payload` is absent for a GET. -/
structure Options where
  method : String
  contentType : String
  authorization : String
  muteHttpExceptions : Bool
  payload : Option String
deriving DecidableEq, Repr

/-- One `UrlFetchApp.fetch(url, options)` call. -/
structure Call where
  url : String
  options : Options
deriving DecidableEq, Repr

/-- The fetch calls issued so far, oldest first. -/
abbrev Log := List Call

/-- The services of the host the client calls. `J` is the type of JSON values.
`fetch n url options` is the outcome of a fetch issued after `n` earlier ones: `none` when it
throws, `some r` when a response is received. `jsonParse` throws on malformed text. -/
structure Platform (J : Type) where
  fetch : Nat → String → Options → Option Response
  base64EncodeWebSafe : String → String
  encodeURI : String → String
  jsonParse : String → Except String J
  jsonStringify : J → String

/-- The outcome of an operation together with the fetch log after it. -/
abbrev Outcome (α : Type) := Except String α × Log

/-! ## Module state -/

/-- The two module variables `apiKey` and `businessId`; `none` is their initial value `false`. -/
structure State where
  apiKey : Option String
  businessId : Option String
deriving DecidableEq, Repr

/-- The state of a freshly loaded module: `var apiKey = false; var businessId = false;`. -/
def State.initial : State := ⟨none, none⟩

/-- JavaScript `!v` for a variable that holds `false` or a string. -/
def falsy : Option String → Bool
  | none => true
  | some s => s == ""

/-- String conversion of a variable that holds `false` or a string, as done by `+`. -/
def strOf : Option String → String
  | none => "false"
  | some s => s

/-- The setter `setApiKey(input)`. -/
def setApiKey (st : State) (input : String) : State := { st with apiKey := some input }

/-- The setter `setBusinessId(input)`. -/
def setBusinessId (st : State) (input : String) : State := { st with businessId := some input }

/-! ## `_tryCall` -/

/-- The constant `var maxAttempts = 5;` of `_tryCall`. -/
def maxAttempts : Nat := 5

/-- The message of the error `_tryCall` throws when it gives up. -/
def tryCallError (attempts : Nat) (url : String) : String :=
  "API call failed " ++ toString attempts ++ " times: url = " ++ url

/-- The `while (attempts < maxAttempts)` loop of `_tryCall`. `left` is `maxAttempts - attempts`,
so the loop guard holds exactly when `left` is a successor. A fetch that returns leaves the
function with the response; a fetch that throws is caught and counted. -/
def tryCallLoop {J : Type} (P : Platform J) (url : String) (options : Options) :
    Nat → Nat → Log → Outcome Response
  | 0, attempts, log => (.error (tryCallError attempts url), log)
  | left + 1, attempts, log =>
    match P.fetch log.length url options with
    | some response => (.ok response, log ++ [⟨url, options⟩])
    | none => tryCallLoop P url options left (attempts + 1) (log ++ [⟨url, options⟩])

/-- The function `_tryCall(url, options)`: `attempts` starts at 0. -/
def _tryCall {J : Type} (P : Platform J) (url : String) (options : Options) (log : Log) :
    Outcome Response :=
  tryCallLoop P url options (maxAttempts - 0) 0 log

/-! ## `_convertObjToUrl` -/

/-- A value of a query-parameter object: a string, or a number that is a safe integer (at most
`2 ^ 53 - 1` in absolute value), the numbers JavaScript prints as their plain decimal
numeral. -/
inductive QVal where
  | str (s : String)
  | num (n : Int) (safe : n.natAbs ≤ 9007199254740991)
deriving DecidableEq, Repr

/-- String conversion of a query value, as `encodeURI` applies it to its argument. -/
def QVal.toStr : QVal → String
  | .str s => s
  | .num n _ => toString n

/-- The function `_convertObjToUrl(obj)`: the `for (var key in obj)` loop over the properties of
`obj`, which come in the order the loop visits them. -/
def _convertObjToUrl {J : Type} (P : Platform J) (obj : List (String × QVal)) : String :=
  obj.foldl (fun str kv =>
    let str := if str != "" then str ++ "&" else str
    str ++ ((if kv.1 == "filter" then "$" ++ kv.1 else kv.1) ++ "=" ++ P.encodeURI kv.2.toStr)) ""

/-! ## The GET, POST and PUT primitives -/

/-- The `headers.Authorization` value: `'Basic ' + Utilities.base64EncodeWebSafe(apiKey)`. -/
def authorization {J : Type} (P : Platform J) (st : State) : String :=
  "Basic " ++ P.base64EncodeWebSafe (strOf st.apiKey)

/-- The `options` object of `_apiGet`. -/
def getOptions {J : Type} (P : Platform J) (st : State) : Options :=
  { method := "get", contentType := "application/json", authorization := authorization P st,
    muteHttpExceptions := true, payload := none }

/-- The `options` object of `_apiPost`. -/
def postOptions {J : Type} (P : Platform J) (st : State) (body : J) : Options :=
  { method := "post", contentType := "application/json", authorization := authorization P st,
    muteHttpExceptions := true, payload := some (P.jsonStringify body) }

/-- The `options` object of `_apiPut`. -/
def putOptions {J : Type} (P : Platform J) (st : State) (body : J) : Options :=
  { method := "put", contentType := "application/json", authorization := authorization P st,
    muteHttpExceptions := true, payload := some (P.jsonStringify body) }

/-- The message thrown when `apiKey` is falsy. -/
def apiKeyError : String := "Error, please set Keypay.apiKey before making API call"

/-- The message thrown when a business-scoped call finds `businessId` falsy. -/
def businessIdError : String := "Error, please set Keypay.businessId before making API call"

/-- The message thrown for a url type the primitive does not know (all three primitives say
`apiGet`). -/
def urlTypeError (urlType : String) : String :=
  "apiGet called with invalid URL type: " ++ urlType

/-- The `if (urlType == ...)` chain of `_apiGet`, which chooses `urlBase` among three. -/
def urlBaseGet (st : State) (urlType : String) : Except String String :=
  if urlType == "bus" then
    if falsy st.businessId then .error businessIdError
    else .ok ("https://api.yourpayroll.com.au/api/v2/business/" ++ strOf st.businessId)
  else if urlType == "ess" then .ok "https://api.yourpayroll.com.au/api/v2/ess/"
  else if urlType == "noId" then .ok "https://api.yourpayroll.com.au/api/v2/business/"
  else .error (urlTypeError urlType)

/-- The `if (urlType == ...)` chain of `_apiPost` and of `_apiPut`, which chooses `urlBase`
among two. -/
def urlBasePostPut (st : State) (urlType : String) : Except String String :=
  if urlType == "bus" then
    if falsy st.businessId then .error businessIdError
    else .ok ("https://api.yourpayroll.com.au/api/v2/business/" ++ strOf st.businessId)
  else if urlType == "ess" then .ok "https://api.yourpayroll.com.au/api/v2/ess/"
  else .error (urlTypeError urlType)

/-- The url of the request: `urlBase + apiUrl`, followed by `'?'` and the serialized `apiData`
when `apiData` is not `undefined` (`none`). -/
def concatUrl {J : Type} (P : Platform J) (urlBase apiUrl : String)
    (apiData : Option (List (String × QVal))) : String :=
  match apiData with
  | none => urlBase ++ apiUrl
  | some obj => urlBase ++ apiUrl ++ "?" ++ _convertObjToUrl P obj

/-- What `_apiGet` returns: the sentinel `false` or the parsed body. -/
inductive GetResult (J : Type) where
  | sentinelFalse
  | parsed (v : J)
deriving DecidableEq, Repr

/-- The function `_apiGet(urlType, apiUrl, apiData)`. `JSON.parse(response)` parses the text of the
response. -/
def _apiGet {J : Type} (P : Platform J) (st : State) (urlType apiUrl : String)
    (apiData : Option (List (String × QVal))) (log : Log) : Outcome (GetResult J) :=
  if falsy st.apiKey then (.error apiKeyError, log)
  else
    match urlBaseGet st urlType with
    | .error e => (.error e, log)
    | .ok urlBase =>
      match _tryCall P (concatUrl P urlBase apiUrl apiData) (getOptions P st) log with
      | (.error e, log1) => (.error e, log1)
      | (.ok response, log1) =>
        if response.code = 200 then
          match P.jsonParse response.content with
          | .error e => (.error e, log1)
          | .ok responseData => (.ok (.parsed responseData), log1)
        else (.ok .sentinelFalse, log1)

/-- The function `_apiPost(urlType, apiUrl, body, apiData)`: both branches of
`if (responseCode == 201)`
return `response`. -/
def _apiPost {J : Type} (P : Platform J) (st : State) (urlType apiUrl : String) (body : J)
    (apiData : Option (List (String × QVal))) (log : Log) : Outcome Response :=
  if falsy st.apiKey then (.error apiKeyError, log)
  else
    match urlBasePostPut st urlType with
    | .error e => (.error e, log)
    | .ok urlBase =>
      match _tryCall P (concatUrl P urlBase apiUrl apiData) (postOptions P st body) log with
      | (.error e, log1) => (.error e, log1)
      | (.ok response, log1) =>
        if response.code = 201 then (.ok response, log1) else (.ok response, log1)

/-- The function `_apiPut(urlType, apiUrl, body, apiData)`: both branches of
`if (responseCode == 200)`
return `response`. -/
def _apiPut {J : Type} (P : Platform J) (st : State) (urlType apiUrl : String) (body : J)
    (apiData : Option (List (String × QVal))) (log : Log) : Outcome Response :=
  if falsy st.apiKey then (.error apiKeyError, log)
  else
    match urlBasePostPut st urlType with
    | .error e => (.error e, log)
    | .ok urlBase =>
      match _tryCall P (concatUrl P urlBase apiUrl apiData) (putOptions P st body) log with
      | (.error e, log1) => (.error e, log1)
      | (.ok response, log1) =>
        if response.code = 200 then (.ok response, log1) else (.ok response, log1)

/-! ## `listEmployeesByPayschedule`

The unstructured-employee endpoint answers with a JSON array, so here the JSON values of the
platform are lists of records of some type `R`: a GET result is the sentinel `false` or an
array. -/

/-- An element of the array `emps`: a record, or the value `false` that
`emps.concat(false)` appends. -/
inductive Emp (R : Type) where
  | falseVal
  | record (r : R)
deriving DecidableEq, Repr

/-- JavaScript truthiness of a GET result: `false` is falsy, every array is truthy. -/
def GetResult.truthy {R : Type} : GetResult (List R) → Bool
  | .sentinelFalse => false
  | .parsed _ => true

/-- The test `response.length != 0`. On `false` the property is `undefined`, which is not `0`. -/
def GetResult.lengthNeZero {R : Type} : GetResult (List R) → Bool
  | .sentinelFalse => true
  | .parsed xs => xs.length != 0

/-- The call `emps.concat(response)`: an array argument is spliced in, any other value is appended as one
element. -/
def concatEmps {R : Type} (emps : List (Emp R)) : GetResult (List R) → List (Emp R)
  | .sentinelFalse => emps ++ [.falseVal]
  | .parsed xs => emps ++ xs.map .record

/-- The text `payScheduleId == undefined ? "" : "&filter.payScheduleId=" + payScheduleId`; `none` is an
absent argument. -/
def paySchedStr (payScheduleId : Option String) : String :=
  match payScheduleId with
  | none => ""
  | some id => "&filter.payScheduleId=" ++ id

/-- The `while (response && response.length != 0)` loop of `listEmployeesByPayschedule`.
The loop need not terminate, so it runs on fuel: `none` means the fuel ran out. An error thrown
by `_apiGet` leaves the loop. -/
def listEmployeesLoop {R : Type} (P : Platform (List R)) (st : State) (schedStr : String) :
    Nat → GetResult (List R) → List (Emp R) → Nat → Log → Option (Outcome (List (Emp R)))
  | 0, _, _, _, _ => none
  | fuel + 1, response, emps, page, log =>
    if response.truthy && response.lengthNeZero then
      let pageStr := "?$top=100&$skip=" ++ toString (100 * page)
      let str := pageStr ++ schedStr
      match _apiGet P st "bus" ("/employee/unstructured" ++ str) none log with
      | (.error e, log1) => some (.error e, log1)
      | (.ok response1, log1) =>
        listEmployeesLoop P st schedStr fuel response1 (concatEmps emps response1) (page + 1) log1
    else some (.ok emps, log)

/-- The function `listEmployeesByPayschedule(payScheduleId)` run on `fuel` loop tests. -/
def listEmployeesByPayschedule {R : Type} (P : Platform (List R)) (st : State)
    (payScheduleId : Option String) (fuel : Nat) (log : Log) :
    Option (Outcome (List (Emp R))) :=
  let pageStr := "?$top=1"
  let str := pageStr ++ paySchedStr payScheduleId
  match _apiGet P st "bus" ("/employee/unstructured" ++ str) none log with
  | (.error e, log1) => some (.error e, log1)
  | (.ok response, log1) =>
    listEmployeesLoop P st (paySchedStr payScheduleId) fuel response [] 0 log1

end Keypay

namespace CD

open Js

/-! ## Records and grids -/

/-- A cell or field value: JavaScript `undefined`, a display string, or the member `name` of
`Object.prototype` (a native function, or the prototype object itself for `__proto__`) that a
read found. -/
inductive Value where
  | undefined
  | str (s : String)
  | inherited (name : String)
deriving DecidableEq, Repr

/-- String conversion of a value used as a property name. -/
def Value.toKey : Value → String
  | .undefined => "undefined"
  | .str s => s
  | .inherited name => protoMemberText name

/-- A row object: field name to value. -/
abbrev Record := Obj Value

/-- A 2D array: row 0 is the header row. -/
abbrev Grid := List (List Value)

/-- The read `obj[k]` of a row object: the own property `k` when the object has one; otherwise
the member of `Object.prototype` of that name when there is one; otherwise `undefined`. -/
def Record.get (r : Record) (k : String) : Value :=
  match Obj.get? r k with
  | some v => v
  | none => if k ∈ objectPrototypeNames then .inherited k else .undefined

/-- The read `row[j]` of an array: `undefined` past its end. -/
def cellAt (row : List Value) (j : Nat) : Value := row.getD j .undefined

/-! ## `mapRows` -/

/-- The assignment `obj[key] = cell` of `mapRows`. The name `__proto__` reaches the setter
inherited from `Object.prototype`: it adds no own property, and a string or `undefined` is
ignored. (A cell that is an object would become the prototype; this is outside the model, and
the statements on `mapRows` are for headers without that name.) -/
def assignCell (obj : Record) (key : String) (cell : Value) : Record :=
  if key = "__proto__" then obj else Obj.set obj key cell

/-- The inner loop of `mapRows`: `for (var j in props) obj[props[j]] = rows[i][j]`, from an
empty object. -/
def mapRow (props row : List Value) : Record :=
  props.enum.foldl (fun obj jp => assignCell obj jp.2.toKey (cellAt row jp.1)) []

/-- The function `mapRows(rows)`: `rows.shift()` takes the header row off, every remaining row
gives one object, and the header row is put back (the result does not depend on that). On an
empty array `shift()` gives `undefined` and no row is left. -/
def mapRows (rows : Grid) : List Record :=
  match rows with
  | [] => []
  | props :: rest => rest.map (mapRow props)

/-! ## `rows2obj` -/

/-- What `rows2obj` returns. With `combineEntries` false: the own properties, one row each, and
the row an assignment to `__proto__` made the prototype of the object (`none` while the
prototype is `Object.prototype`). With `combineEntries` true: the own properties, an array of
rows each. -/
inductive Grouped where
  | single (own : Obj Record) (proto : Option Record)
  | combined (own : Obj (List Record))
deriving DecidableEq, Repr

/-- The body of the loop of `rows2obj` when `combineEntries` is false:
`combinedObj[id] = obj`. For the name `__proto__` the inherited setter makes `obj` the prototype
and adds no own property. -/
def rows2objStepSingle (idColName : String) (combinedObj : Obj Record × Option Record)
    (obj : Record) : Obj Record × Option Record :=
  let id := (obj.get idColName).toKey
  if id = "__proto__" then (combinedObj.1, some obj)
  else (Obj.set combinedObj.1 id obj, combinedObj.2)

/-- The message of the `TypeError` thrown when `combinedObj[id]` holds no array. -/
def pushError : String := "TypeError: combinedObj[id].push is not a function"

/-- The body of the loop of `rows2obj` when `combineEntries` is true. The read
`combinedObj[id]` is `undefined` when the object has no own property `id` and `id` names no
member of `Object.prototype`; only then the property is first set to `[]` (so the name
`__proto__` is never assigned here). Then `obj` is pushed onto what the read gives: an own array
takes it, an inherited member has no `push` and the call throws. -/
def rows2objStepCombined (idColName : String) (combinedObj : Obj (List Record)) (obj : Record) :
    Except String (Obj (List Record)) :=
  let id := (obj.get idColName).toKey
  let combinedObj :=
    if Obj.get? combinedObj id = none ∧ id ∉ objectPrototypeNames then Obj.set combinedObj id []
    else combinedObj
  match Obj.get? combinedObj id with
  | some entries => .ok (Obj.set combinedObj id (entries ++ [obj]))
  | none => .error pushError

/-- The loop `for (var i in rows)` of `rows2obj` when `combineEntries` is true: a throw ends
it. -/
def rows2objCombined (idColName : String) :
    List Record → Obj (List Record) → Except String (Obj (List Record))
  | [], combinedObj => .ok combinedObj
  | obj :: rest, combinedObj =>
    match rows2objStepCombined idColName combinedObj obj with
    | .error e => .error e
    | .ok next => rows2objCombined idColName rest next

/-- The function `rows2obj(rows, idColName, combineEntries)`. The flag does not change during
the loop, so the test on it is taken out of the loop. -/
def rows2obj (rows : List Record) (idColName : String) (combineEntries : Bool) :
    Except String Grouped :=
  if combineEntries then
    match rows2objCombined idColName rows [] with
    | .error e => .error e
    | .ok combinedObj => .ok (.combined combinedObj)
  else
    .ok (.single (rows.foldl (rows2objStepSingle idColName) ([], none)).1
      (rows.foldl (rows2objStepSingle idColName) ([], none)).2)

/-! ## `tabulateArray` -/

/-- The header row `tabulateArray` builds when none is given: every property of every object,
pushed unless `headerRow.indexOf(property)` finds it (for a value that is not in the list
`List.indexOf` answers the length of the list, where JavaScript answers `-1`). -/
def collectHeader (array : List Record) : List String :=
  array.foldl (fun headerRow obj =>
    obj.foldl (fun headerRow kv =>
      if headerRow.indexOf kv.1 == headerRow.length then headerRow ++ [kv.1] else headerRow)
      headerRow) []

/-- The row `tabulateArray` builds for one object: for every entry of the header row what the
object reads there, or `""` when it reads `undefined`. -/
def tabulateRow (headerRow : List String) (obj : Record) : List Value :=
  headerRow.map (fun h => if obj.get h = .undefined then .str "" else obj.get h)

/-- The function `tabulateArray(array, headerRow)`; `none` is an absent `headerRow`. -/
def tabulateArray (array : List Record) (headerRow : Option (List String)) : Grid :=
  let headerRow := match headerRow with
    | none => collectHeader array
    | some h => h
  [headerRow.map Value.str] ++ array.map (tabulateRow headerRow)

/-! ## `makeNewSheet` -/

/-- The name `makeNewSheet(name)` looks the sheet up and creates it under:
`if (name.length > 100) name = name.slice(0, 99)`. Lengths count characters, which is what
JavaScript counts for names within the Basic Multilingual Plane. -/
def sheetName (name : String) : String :=
  if name.length > 100 then String.mk (name.data.take 99) else name

/-! ## Specification vocabulary -/

/-- The property name `rows2obj` files a row under: the string conversion of what the row reads
for `idColName`. -/
def groupKey (idColName : String) (r : Record) : String := (r.get idColName).toKey

/-- The distinct elements of a list, each at the place of its first occurrence. -/
def firstSeen : List String → List String
  | [] => []
  | k :: ks => k :: (firstSeen ks).filter (fun k1 => k1 ≠ k)

/-- The last row of `rows`, in input order, that is filed under `k`. -/
def lastWithKey (idColName : String) (rows : List Record) (k : String) : Option Record :=
  (rows.filter (fun r => groupKey idColName r = k)).getLast?

/-- The rows of `rows` that are filed under `k`, in input order. -/
def rowsWithKey (idColName : String) (rows : List Record) (k : String) : List Record :=
  rows.filter (fun r => groupKey idColName r = k)

/-- The value a record has for a field, or the empty string when the record lacks the field. -/
def valueOrEmpty (r : Record) (k : String) : Value := (Obj.get? r k).getD (.str "")

end CD

/-! ## Sample platforms

Concrete hosts on which the statements below are instantiated. -/

namespace Keypay

/-- JSON values, for the sample platforms. -/
inductive Json where
  | null
  | bool (b : Bool)
  | num (n : Int)
  | str (s : String)
  | arr (items : List Json)
  | obj (fields : List (String × Json))

/-- A host whose fetch throws three times and then answers 503 every time. -/
def flakyPlatform : Platform Json where
  fetch := fun n _ _ => if n < 3 then none else some ⟨503, "busy"⟩
  base64EncodeWebSafe := fun s => s
  encodeURI := fun s => s
  jsonParse := fun _ => .error "SyntaxError"
  jsonStringify := fun _ => ""

/-- A host whose fetch always throws. -/
def deadPlatform : Platform Json where
  fetch := fun _ _ _ => none
  base64EncodeWebSafe := fun s => s
  encodeURI := fun s => s
  jsonParse := fun _ => .error "SyntaxError"
  jsonStringify := fun _ => ""

/-- Some GET options, for the samples. -/
def sampleOptions : Options :=
  { method := "get", contentType := "application/json", authorization := "Basic a2V5",
    muteHttpExceptions := true, payload := none }

/-- The JSON object `{a: 1}`. -/
def jsonA1 : Json := .obj [("a", .num 1)]

/-- A host whose fetch answers its first call with 200 and the body `{"a":1}` and every later
call with 404, and whose `JSON.parse` knows that one body. -/
def answeringPlatform : Platform Json where
  fetch := fun n _ _ => if n = 0 then some ⟨200, "\x7b\"a\":1\x7d"⟩ else some ⟨404, "Not Found"⟩
  base64EncodeWebSafe := fun s => s
  encodeURI := fun s => s
  jsonParse := fun s => if s = "\x7b\"a\":1\x7d" then .ok jsonA1 else .error "SyntaxError"
  jsonStringify := fun _ => "\x7b\x7d"

/-- A state with both credentials set. -/
def readyState : State := setBusinessId (setApiKey State.initial "key") "1234"

/-- One fetch call already issued, for the samples that start from a later call. -/
def oneCall : Log := [⟨"https://host/x", sampleOptions⟩]

/-- The characters `encodeURI` leaves as they are. -/
def uriUnescaped (c : Char) : Bool :=
  c.isAlphanum || ";/?:@&=+$,-_.!~*()#".data.contains c || c == Char.ofNat 39

/-- The escape `%XX` of one byte. -/
def percentByte (b : Nat) : String :=
  String.mk ['%', (Nat.digitChar (b / 16)).toUpper, (Nat.digitChar (b % 16)).toUpper]

/-- A sample `encodeURI`: every other character becomes the escapes of its UTF-8 bytes. -/
def sampleEncodeURI (s : String) : String :=
  s.data.foldl (fun acc c =>
    if uriUnescaped c then acc.push c
    else (String.utf8EncodeChar c).foldl (fun a b => a ++ percentByte b.toNat) acc) ""

/-- A host with the sample `encodeURI`; its fetch answers 200 with an empty array. -/
def encodingPlatform : Platform Json where
  fetch := fun _ _ _ => some ⟨200, "[]"⟩
  base64EncodeWebSafe := fun s => s
  encodeURI := sampleEncodeURI
  jsonParse := fun _ => .ok (.arr [])
  jsonStringify := fun _ => "[]"

/-- The pages of the paged host: the probe holds the first employee, the next three pages hold
employees 0 to 236, and the last page is empty. -/
def samplePages (i : Nat) : List Nat :=
  match i with
  | 0 => [0]
  | 1 => List.range' 0 100
  | 2 => List.range' 100 100
  | 3 => List.range' 200 37
  | _ => []

/-- A host whose call number `i` is answered with 200 and page `i` of `samplePages`; employees
are numbers. -/
def pagedPlatform : Platform (List Nat) where
  fetch := fun n _ _ => some ⟨200, String.mk (List.replicate n 'p')⟩
  base64EncodeWebSafe := fun s => s
  encodeURI := fun s => s
  jsonParse := fun s => .ok (samplePages s.length)
  jsonStringify := fun _ => ""

/-- A host whose first call is answered with 200 and a one-employee array and whose every later
call is answered with 500, so that the first page after the probe is the sentinel `false`. -/
def failingPagePlatform : Platform (List Nat) where
  fetch := fun n _ _ => if n = 0 then some ⟨200, "[0]"⟩ else some ⟨500, "Server Error"⟩
  base64EncodeWebSafe := fun s => s
  encodeURI := fun s => s
  jsonParse := fun _ => .ok [0]
  jsonStringify := fun _ => ""

/-- The base url the three-way selector stands for: `bus`, `noId` or `ess`; `none` for any other
selector. -/
def selectorBase (st : State) (urlType : String) : Option String :=
  if urlType = "bus" then
    some ("https://api.yourpayroll.com.au/api/v2/business/" ++ strOf st.businessId)
  else if urlType = "noId" then some "https://api.yourpayroll.com.au/api/v2/business/"
  else if urlType = "ess" then some "https://api.yourpayroll.com.au/api/v2/ess/"
  else none

end Keypay

/-! # Theorems -/

namespace Js

/-! ## Objects -/

theorem keyBefore_asymm (a b : String) (h : keyBefore a b = true) : keyBefore b a = false := by
  unfold keyBefore at h ⊢
  cases ha : arrayIndex? a <;> cases hb : arrayIndex? b <;> simp_all
  omega

theorem keyBefore_trans (a b c : String) (hab : keyBefore a b = true)
    (hbc : keyBefore b c = true) : keyBefore a c = true := by
  unfold keyBefore at hab hbc ⊢
  cases ha : arrayIndex? a <;> cases hb : arrayIndex? b <;> cases hc : arrayIndex? c <;>
    simp_all
  omega

theorem keyBefore_of_not_index (k k1 : String) (hk : arrayIndex? k = none) :
    keyBefore k k1 = false := by
  unfold keyBefore
  rw [hk]

theorem Obj.get?_set {α : Type} (o : Obj α) (k k1 : String) (v : α) :
    Obj.get? (Obj.set o k v) k1 = if k = k1 then some v else Obj.get? o k1 := by
  induction o with
  | nil => simp [Obj.set, Obj.get?]
  | cons p rest ih =>
    obtain ⟨k0, v0⟩ := p
    by_cases h0 : k0 = k
    · subst h0
      by_cases h1 : k0 = k1 <;> simp [Obj.set, Obj.get?, h1]
    · by_cases hb : keyBefore k k0 = true
      · by_cases h1 : k = k1
        · subst h1
          simp [Obj.set, Obj.get?, h0, hb]
        · simp [Obj.set, Obj.get?, h0, hb, h1]
      · by_cases h1 : k = k1
        · subst h1
          simp [Obj.set, Obj.get?, h0, hb, ih]
        · simp [Obj.set, Obj.get?, h0, hb, h1, ih]

theorem Obj.set_set {α : Type} (o : Obj α) (k : String) (v w : α) :
    Obj.set (Obj.set o k v) k w = Obj.set o k w := by
  induction o with
  | nil => simp [Obj.set]
  | cons p rest ih =>
    obtain ⟨k0, v0⟩ := p
    by_cases h0 : k0 = k
    · simp [Obj.set, h0]
    · by_cases hb : keyBefore k k0 = true
      · simp [Obj.set, h0, hb]
      · simp [Obj.set, h0, hb, ih]

theorem Obj.get?_eq_none_iff {α : Type} (o : Obj α) (k : String) :
    Obj.get? o k = none ↔ k ∉ o.keys := by
  induction o with
  | nil => simp [Obj.get?, Obj.keys]
  | cons p rest ih =>
    obtain ⟨k0, v0⟩ := p
    by_cases h0 : k0 = k
    · simp [Obj.get?, Obj.keys, h0]
    · have h1 : ¬ k = k0 := fun h => h0 h.symm
      simpa [Obj.get?, Obj.keys, h0, h1] using ih

theorem Obj.mem_keys_set {α : Type} (o : Obj α) (k k1 : String) (v : α) :
    k1 ∈ (Obj.set o k v).keys ↔ k1 = k ∨ k1 ∈ o.keys := by
  induction o with
  | nil => simp [Obj.set, Obj.keys]
  | cons p rest ih =>
    obtain ⟨k0, v0⟩ := p
    by_cases h0 : k0 = k
    · subst h0
      simp [Obj.set, Obj.keys]
    · by_cases hb : keyBefore k k0 = true
      · simp [Obj.set, Obj.keys, h0, hb]
      · have hstep : Obj.set ((k0, v0) :: rest) k v = (k0, v0) :: Obj.set rest k v := by
          simp [Obj.set, h0, hb]
        rw [hstep]
        show k1 ∈ k0 :: Obj.keys (Obj.set rest k v) ↔ k1 = k ∨ k1 ∈ k0 :: Obj.keys rest
        rw [List.mem_cons, List.mem_cons, ih]
        tauto

theorem Obj.ordered_set {α : Type} (o : Obj α) (k : String) (v : α) (h : o.Ordered) :
    (Obj.set o k v).Ordered := by
  induction o with
  | nil => simp [Obj.set, Obj.Ordered, Obj.keys]
  | cons p rest ih =>
    obtain ⟨k0, v0⟩ := p
    have hcons : (∀ b, b ∈ Obj.keys rest → k0 ≠ b ∧ keyBefore b k0 = false)
        ∧ Obj.Ordered rest := by
      simpa [Obj.Ordered, Obj.keys] using h
    obtain ⟨hhead, hrest⟩ := hcons
    by_cases h0 : k0 = k
    · subst h0
      simpa [Obj.set, Obj.Ordered, Obj.keys] using h
    · by_cases hb : keyBefore k k0 = true
      · have hnew : ∀ b, b ∈ Obj.keys ((k0, v0) :: rest) → k ≠ b ∧ keyBefore b k = false := by
          intro b hbm
          simp only [Obj.keys, List.map_cons, List.mem_cons] at hbm
          rcases hbm with e | e
          · subst e
            exact ⟨fun x => h0 x.symm, keyBefore_asymm _ _ hb⟩
          · obtain ⟨_, hb0⟩ := hhead b e
            refine ⟨?_, ?_⟩
            · intro x
              subst x
              rw [hb] at hb0
              exact Bool.noConfusion hb0
            · cases hbk : keyBefore b k with
              | false => rfl
              | true =>
                rw [keyBefore_trans b k k0 hbk hb] at hb0
                exact Bool.noConfusion hb0
        have : Obj.Ordered ((k, v) :: (k0, v0) :: rest) := by
          unfold Obj.Ordered
          rw [show Obj.keys ((k, v) :: (k0, v0) :: rest)
            = k :: Obj.keys ((k0, v0) :: rest) from rfl]
          exact List.pairwise_cons.mpr ⟨hnew, h⟩
        simpa [Obj.set, h0, hb] using this
      · have hb1 : keyBefore k k0 = false := by simpa using hb
        have hstep : Obj.set ((k0, v0) :: rest) k v = (k0, v0) :: Obj.set rest k v := by
          simp [Obj.set, h0, hb]
        rw [hstep]
        unfold Obj.Ordered
        rw [show Obj.keys ((k0, v0) :: Obj.set rest k v)
          = k0 :: Obj.keys (Obj.set rest k v) from rfl]
        refine List.pairwise_cons.mpr ⟨?_, ih hrest⟩
        intro b hbm
        rcases (Obj.mem_keys_set rest k b v).mp hbm with e | e
        · subst e
          exact ⟨h0, hb1⟩
        · exact hhead b e

theorem Obj.Ordered.nodup {α : Type} {o : Obj α} (h : o.Ordered) : o.keys.Nodup :=
  List.Pairwise.imp (fun hab => hab.1) h

theorem Obj.set_of_not_index {α : Type} (o : Obj α) (k : String) (v : α)
    (hk : arrayIndex? k = none) (h : k ∉ o.keys) : Obj.set o k v = o ++ [(k, v)] := by
  induction o with
  | nil => rfl
  | cons p rest ih =>
    obtain ⟨k0, v0⟩ := p
    have h0 : ¬ k0 = k := fun e => h (by simp [Obj.keys, e])
    have hr : k ∉ Obj.keys rest := fun e => h (by simp [Obj.keys] at e ⊢; exact Or.inr e)
    simp [Obj.set, h0, keyBefore_of_not_index k k0 hk, ih hr]

theorem Obj.perm_set {α : Type} (o : Obj α) (k : String) (v : α) (h : k ∉ o.keys) :
    List.Perm (Obj.set o k v) ((k, v) :: o) := by
  induction o with
  | nil => exact List.Perm.refl _
  | cons p rest ih =>
    obtain ⟨k0, v0⟩ := p
    have h0 : ¬ k0 = k := fun e => h (by simp [Obj.keys, e])
    have hr : k ∉ Obj.keys rest := fun e => h (by simp [Obj.keys] at e ⊢; exact Or.inr e)
    by_cases hb : keyBefore k k0 = true
    · simp [Obj.set, h0, hb]
    · have hstep : Obj.set ((k0, v0) :: rest) k v = (k0, v0) :: Obj.set rest k v := by
        simp [Obj.set, h0, hb]
      rw [hstep]
      exact ((ih hr).cons (k0, v0)).trans (List.Perm.swap _ _ _)

/-! ## Objects built by a loop of assignments -/

theorem Obj.foldl_set_get? {α β : Type} (g : β → String) (h : β → α) (xs : List β)
    (k : String) :
    Obj.get? (xs.foldl (fun o x => Obj.set o (g x) (h x)) []) k
      = ((xs.filter (fun x => g x = k)).getLast?).map h := by
  induction xs using List.reverseRecOn with
  | nil => rfl
  | append_singleton xs x ih =>
    simp only [List.foldl_append, List.foldl_cons, List.foldl_nil, Obj.get?_set, ih,
      List.filter_append]
    by_cases e : g x = k
    · simp [e, List.filter_cons]
    · simp [e, List.filter_cons]

theorem Obj.foldl_set_ordered {α β : Type} (g : β → String) (h : β → α) (xs : List β) :
    (xs.foldl (fun o x => Obj.set o (g x) (h x)) []).Ordered := by
  induction xs using List.reverseRecOn with
  | nil => simp [Obj.Ordered, Obj.keys]
  | append_singleton xs x ih =>
    rw [List.foldl_append, List.foldl_cons, List.foldl_nil]
    exact Obj.ordered_set _ _ _ ih

theorem Obj.foldl_set_mem_keys {α β : Type} (g : β → String) (h : β → α) (xs : List β)
    (k : String) :
    k ∈ (xs.foldl (fun o x => Obj.set o (g x) (h x)) []).keys ↔ k ∈ xs.map g := by
  induction xs using List.reverseRecOn with
  | nil => simp [Obj.keys]
  | append_singleton xs x ih =>
    rw [List.foldl_append, List.foldl_cons, List.foldl_nil, Obj.mem_keys_set, ih]
    simp only [List.map_append, List.map_cons, List.map_nil, List.mem_append,
      List.mem_singleton]
    tauto

theorem Obj.foldl_set_perm {α β : Type} (g : β → String) (h : β → α) (xs : List β)
    (hnd : (xs.map g).Nodup) :
    List.Perm (xs.foldl (fun o x => Obj.set o (g x) (h x)) []) (xs.map (fun x => (g x, h x))) := by
  induction xs using List.reverseRecOn with
  | nil => exact List.Perm.refl _
  | append_singleton xs x ih =>
    rw [List.map_append, List.nodup_append] at hnd
    obtain ⟨hxs, _, hdis⟩ := hnd
    have hfresh : g x ∉ Obj.keys (xs.foldl (fun o x => Obj.set o (g x) (h x)) []) := by
      intro hm
      exact hdis ((Obj.foldl_set_mem_keys g h xs (g x)).mp hm) (by simp)
    rw [List.foldl_append, List.foldl_cons, List.foldl_nil, List.map_append]
    refine (Obj.perm_set _ _ _ hfresh).trans ?_
    refine ((ih hxs).cons _).trans ?_
    simpa using (@List.perm_append_comm _ [(g x, h x)] (xs.map (fun x => (g x, h x))))

theorem Obj.foldl_set_of_plain {α β : Type} (g : β → String) (h : β → α) (xs : List β)
    (hnd : (xs.map g).Nodup) (hplain : ∀ x, x ∈ xs → arrayIndex? (g x) = none) :
    xs.foldl (fun o x => Obj.set o (g x) (h x)) [] = xs.map (fun x => (g x, h x)) := by
  induction xs using List.reverseRecOn with
  | nil => rfl
  | append_singleton xs x ih =>
    rw [List.map_append, List.nodup_append] at hnd
    obtain ⟨hxs, _, hdis⟩ := hnd
    have hfresh : g x ∉ Obj.keys (xs.map (fun x => (g x, h x))) := by
      intro hm
      have hm1 : g x ∈ xs.map g := by simpa [Obj.keys, Function.comp_def] using hm
      exact hdis hm1 (by simp)
    rw [List.foldl_append, List.foldl_cons, List.foldl_nil,
      ih hxs (fun y hy => hplain y (List.mem_append_left _ hy)),
      Obj.set_of_not_index _ _ _ (hplain x (by simp)) hfresh]
    simp

theorem Obj.filter_plain_set {α : Type} (o : Obj α) (k : String) (v : α) (h : k ∉ o.keys) :
    (Obj.set o k v).filter (fun kv => (arrayIndex? kv.1).isNone)
      = o.filter (fun kv => (arrayIndex? kv.1).isNone)
        ++ (if (arrayIndex? k).isNone then [(k, v)] else []) := by
  by_cases hk : arrayIndex? k = none
  · rw [Obj.set_of_not_index o k v hk h, List.filter_append]
    simp [hk]
  · have hk1 : (arrayIndex? k).isNone = false := by
      cases hx : arrayIndex? k with
      | none => exact absurd hx hk
      | some n => rfl
    rw [hk1]
    simp only [Bool.false_eq_true, if_false, List.append_nil]
    induction o with
    | nil => simp [Obj.set, hk1]
    | cons p rest ih =>
      obtain ⟨k0, v0⟩ := p
      have h0 : ¬ k0 = k := fun e => h (by simp [Obj.keys, e])
      have hr : k ∉ Obj.keys rest := fun e => h (by simp [Obj.keys] at e ⊢; exact Or.inr e)
      by_cases hb : keyBefore k k0 = true
      · simp [Obj.set, h0, hb, List.filter_cons, hk1]
      · have hstep : Obj.set ((k0, v0) :: rest) k v = (k0, v0) :: Obj.set rest k v := by
          simp [Obj.set, h0, hb]
        rw [hstep, List.filter_cons, List.filter_cons, ih hr]

theorem Obj.foldl_set_filter_plain {α β : Type} (g : β → String) (h : β → α) (xs : List β)
    (hnd : (xs.map g).Nodup) :
    (xs.foldl (fun o x => Obj.set o (g x) (h x)) []).filter (fun kv => (arrayIndex? kv.1).isNone)
      = (xs.map (fun x => (g x, h x))).filter (fun kv => (arrayIndex? kv.1).isNone) := by
  induction xs using List.reverseRecOn with
  | nil => rfl
  | append_singleton xs x ih =>
    rw [List.map_append, List.nodup_append] at hnd
    obtain ⟨hxs, _, hdis⟩ := hnd
    have hfresh : g x ∉ Obj.keys (xs.foldl (fun o x => Obj.set o (g x) (h x)) []) := by
      intro hm
      exact hdis ((Obj.foldl_set_mem_keys g h xs (g x)).mp hm) (by simp)
    rw [List.foldl_append, List.foldl_cons, List.foldl_nil, Obj.filter_plain_set _ _ _ hfresh,
      ih hxs, List.map_append, List.filter_append]
    by_cases hk : (arrayIndex? (g x)).isNone = true <;> simp [hk, List.filter_cons]

end Js

namespace Keypay

/-! ## The retry loop -/

theorem tryCallLoop_ok {J : Type} (P : Platform J) (url : String) (options : Options)
    (response : Response) :
    ∀ (k left attempts : Nat) (log : Log), k < left →
      (∀ j, j < k → P.fetch (log.length + j) url options = none) →
      P.fetch (log.length + k) url options = some response →
      tryCallLoop P url options left attempts log
        = (.ok response, log ++ List.replicate (k + 1) ⟨url, options⟩) := by
  intro k
  induction k with
  | zero =>
    intro left attempts log hk _ hret
    obtain ⟨l, rfl⟩ : ∃ l, left = l + 1 := ⟨left - 1, by omega⟩
    simp only [Nat.add_zero] at hret
    simp [tryCallLoop, hret]
  | succ k ih =>
    intro left attempts log hk hthrow hret
    obtain ⟨l, rfl⟩ : ∃ l, left = l + 1 := ⟨left - 1, by omega⟩
    have h0 : P.fetch log.length url options = none := by
      simpa using hthrow 0 (Nat.succ_pos k)
    have step := ih l (attempts + 1) (log ++ [⟨url, options⟩]) (by omega)
      (fun j hj => by
        have := hthrow (j + 1) (by omega)
        simpa [Nat.add_assoc, Nat.add_comm 1 j] using this)
      (by simpa [Nat.add_assoc, Nat.add_comm 1 k] using hret)
    simp only [tryCallLoop, h0, step, List.append_assoc, List.singleton_append,
      ← List.replicate_succ]

theorem tryCallLoop_fail {J : Type} (P : Platform J) (url : String) (options : Options) :
    ∀ (left attempts : Nat) (log : Log),
      (∀ j, j < left → P.fetch (log.length + j) url options = none) →
      tryCallLoop P url options left attempts log
        = (.error (tryCallError (attempts + left) url),
            log ++ List.replicate left ⟨url, options⟩) := by
  intro left
  induction left with
  | zero => intro attempts log _; simp [tryCallLoop]
  | succ l ih =>
    intro attempts log hthrow
    have h0 : P.fetch log.length url options = none := by
      simpa using hthrow 0 (Nat.succ_pos l)
    have step := ih (attempts + 1) (log ++ [⟨url, options⟩])
      (fun j hj => by
        have := hthrow (j + 1) (by omega)
        simpa [Nat.add_assoc, Nat.add_comm 1 j] using this)
    simp only [tryCallLoop, h0, step, List.append_assoc, List.singleton_append,
      ← List.replicate_succ, Nat.add_assoc, Nat.add_comm 1 l]

/-- C1: if the fetch throws on its first `k` calls (`k ≤ 4`) and returns a response on call
`k + 1`, then `_tryCall` returns exactly that response, whatever its status code, and has
issued exactly `k + 1` fetch calls, all of them for the given url and options. -/
theorem tryCall_returns_first_response {J : Type} (P : Platform J) (url : String)
    (options : Options) (log : Log) (k : Nat) (response : Response) (hk : k ≤ 4)
    (hthrow : ∀ j, j < k → P.fetch (log.length + j) url options = none)
    (hret : P.fetch (log.length + k) url options = some response) :
    _tryCall P url options log
        = (.ok response, log ++ List.replicate (k + 1) ⟨url, options⟩)
      ∧ (_tryCall P url options log).2.length = log.length + (k + 1) := by
  have h := tryCallLoop_ok P url options response k (maxAttempts - 0) 0 log
    (by simp [maxAttempts]; omega) hthrow hret
  refine ⟨h, ?_⟩
  rw [_tryCall, h]
  simp

theorem tryCall_returns_first_response_witness :
    _tryCall flakyPlatform "https://host/x" sampleOptions []
        = (.ok ⟨503, "busy"⟩, [] ++ List.replicate (3 + 1) ⟨"https://host/x", sampleOptions⟩)
      ∧ (_tryCall flakyPlatform "https://host/x" sampleOptions []).2.length
        = ([] : Log).length + (3 + 1) :=
  tryCall_returns_first_response flakyPlatform "https://host/x" sampleOptions [] 3 ⟨503, "busy"⟩
    (by decide) (by decide) (by decide)

/-- C2: if the fetch throws on each of its first 5 calls, `_tryCall` throws the error
"API call failed 5 times: url = " followed by the url, and has issued exactly 5 fetch calls. -/
theorem tryCall_gives_up_after_five {J : Type} (P : Platform J) (url : String)
    (options : Options) (log : Log)
    (hthrow : ∀ j, j < 5 → P.fetch (log.length + j) url options = none) :
    _tryCall P url options log
        = (.error ("API call failed 5 times: url = " ++ url),
            log ++ List.replicate 5 ⟨url, options⟩)
      ∧ (_tryCall P url options log).2.length = log.length + 5 := by
  have h := tryCallLoop_fail P url options (maxAttempts - 0) 0 log
    (by simpa [maxAttempts] using hthrow)
  have hmsg : tryCallError (0 + (maxAttempts - 0)) url
      = "API call failed 5 times: url = " ++ url := by
    simp only [tryCallError, maxAttempts]
    rfl
  rw [hmsg] at h
  refine ⟨by simpa [_tryCall, maxAttempts] using h, ?_⟩
  rw [_tryCall, h]
  simp [maxAttempts]

theorem tryCall_gives_up_after_five_witness :
    _tryCall deadPlatform "https://host/x" sampleOptions []
        = (.error ("API call failed 5 times: url = " ++ "https://host/x"),
            [] ++ List.replicate 5 ⟨"https://host/x", sampleOptions⟩)
      ∧ (_tryCall deadPlatform "https://host/x" sampleOptions []).2.length
        = ([] : Log).length + 5 :=
  tryCall_gives_up_after_five deadPlatform "https://host/x" sampleOptions [] (by decide)

/-! ## The three primitives -/

/-- C3: a GET call whose credentials are set (the key is truthy and the url type selects a
base, which for a business-scoped call needs the business id) and whose transport returns a
response gives the JSON-parsed body of the response when the code is 200 (whatever
`JSON.parse` throws is thrown on), and the sentinel `false` for every other code. -/
theorem apiGet_parsed_on_200_false_otherwise {J : Type} (P : Platform J) (st : State)
    (urlType apiUrl urlBase : String) (apiData : Option (List (String × QVal)))
    (log log1 : Log) (response : Response)
    (hkey : falsy st.apiKey = false)
    (hbase : urlBaseGet st urlType = .ok urlBase)
    (htransport : _tryCall P (concatUrl P urlBase apiUrl apiData) (getOptions P st) log
      = (.ok response, log1)) :
    _apiGet P st urlType apiUrl apiData log
      = (if response.code = 200 then (P.jsonParse response.content).map GetResult.parsed
          else .ok GetResult.sentinelFalse, log1) := by
  unfold _apiGet
  simp only [hkey, hbase, htransport]
  by_cases hc : response.code = 200
  · simp only [hc, if_true]
    cases P.jsonParse response.content <;> rfl
  · simp [hc]

theorem apiGet_parsed_on_200_false_otherwise_witness :
    _apiGet answeringPlatform readyState "bus" "/payrun" none []
        = (.ok (.parsed jsonA1),
            [⟨"https://api.yourpayroll.com.au/api/v2/business/1234/payrun",
              getOptions answeringPlatform readyState⟩])
      ∧ _apiGet answeringPlatform readyState "noId" "" none oneCall
        = (.ok .sentinelFalse,
            oneCall ++ [⟨"https://api.yourpayroll.com.au/api/v2/business/",
              getOptions answeringPlatform readyState⟩]) :=
  ⟨apiGet_parsed_on_200_false_otherwise answeringPlatform readyState "bus" "/payrun"
      "https://api.yourpayroll.com.au/api/v2/business/1234" none [] _
      ⟨200, "\x7b\"a\":1\x7d"⟩ rfl rfl rfl,
    apiGet_parsed_on_200_false_otherwise answeringPlatform readyState "noId" ""
      "https://api.yourpayroll.com.au/api/v2/business/" none oneCall _
      ⟨404, "Not Found"⟩ rfl rfl rfl⟩

/-- C4: a POST call and a PUT call whose credentials are set and whose transport returns a
response give back that response itself, whatever its code. -/
theorem apiPost_apiPut_return_raw_response {J : Type} (P : Platform J) (st : State)
    (urlType apiUrl urlBase : String) (body : J) (apiData : Option (List (String × QVal)))
    (log logPost logPut : Log) (responsePost responsePut : Response)
    (hkey : falsy st.apiKey = false)
    (hbase : urlBasePostPut st urlType = .ok urlBase)
    (hpost : _tryCall P (concatUrl P urlBase apiUrl apiData) (postOptions P st body) log
      = (.ok responsePost, logPost))
    (hput : _tryCall P (concatUrl P urlBase apiUrl apiData) (putOptions P st body) log
      = (.ok responsePut, logPut)) :
    _apiPost P st urlType apiUrl body apiData log = (.ok responsePost, logPost)
      ∧ _apiPut P st urlType apiUrl body apiData log = (.ok responsePut, logPut) := by
  constructor
  · unfold _apiPost
    simp only [hkey, hbase, hpost]
    simp
  · unfold _apiPut
    simp only [hkey, hbase, hput]
    simp

theorem apiPost_apiPut_return_raw_response_witness :
    _apiPost answeringPlatform readyState "bus" "/location" jsonA1 none oneCall
        = (.ok ⟨404, "Not Found"⟩,
            oneCall ++ [⟨"https://api.yourpayroll.com.au/api/v2/business/1234/location",
              postOptions answeringPlatform readyState jsonA1⟩])
      ∧ _apiPut answeringPlatform readyState "bus" "/location" jsonA1 none oneCall
        = (.ok ⟨404, "Not Found"⟩,
            oneCall ++ [⟨"https://api.yourpayroll.com.au/api/v2/business/1234/location",
              putOptions answeringPlatform readyState jsonA1⟩]) :=
  apiPost_apiPut_return_raw_response answeringPlatform readyState "bus" "/location"
    "https://api.yourpayroll.com.au/api/v2/business/1234" jsonA1 none oneCall _ _
    ⟨404, "Not Found"⟩ ⟨404, "Not Found"⟩ rfl rfl rfl rfl

/-- C5: a business-scoped call through `_apiGet`, `_apiPost` or `_apiPut` whose access key is
unset (falsy), or whose access key is set while the business id is unset (falsy), throws and
leaves the fetch log as it was: no fetch call is issued. `setApiKey` and `setBusinessId` each
change their own variable and leave the other one unchanged. -/
theorem scoped_call_fails_fast_without_credentials {J : Type} (P : Platform J) (st : State)
    (apiUrl : String) (body : J) (apiData : Option (List (String × QVal))) (log : Log)
    (input : String)
    (hunset : falsy st.apiKey = true ∨ (falsy st.apiKey = false ∧ falsy st.businessId = true)) :
    (_apiGet P st "bus" apiUrl apiData log
        = (.error (if falsy st.apiKey then apiKeyError else businessIdError), log)
      ∧ _apiPost P st "bus" apiUrl body apiData log
        = (.error (if falsy st.apiKey then apiKeyError else businessIdError), log)
      ∧ _apiPut P st "bus" apiUrl body apiData log
        = (.error (if falsy st.apiKey then apiKeyError else businessIdError), log))
      ∧ (setApiKey st input).apiKey = some input
      ∧ (setApiKey st input).businessId = st.businessId
      ∧ (setBusinessId st input).businessId = some input
      ∧ (setBusinessId st input).apiKey = st.apiKey := by
  refine ⟨?_, rfl, rfl, rfl, rfl⟩
  rcases hunset with h | ⟨h1, h2⟩
  · simp [_apiGet, _apiPost, _apiPut, h]
  · simp [_apiGet, _apiPost, _apiPut, h1, h2, urlBaseGet, urlBasePostPut]

theorem scoped_call_fails_fast_without_credentials_witness :
    (_apiGet answeringPlatform (setApiKey State.initial "key") "bus" "/payrun" none []
        = (.error (if falsy (setApiKey State.initial "key").apiKey then apiKeyError
            else businessIdError), [])
      ∧ _apiPost answeringPlatform (setApiKey State.initial "key") "bus" "/payrun" jsonA1 none []
        = (.error (if falsy (setApiKey State.initial "key").apiKey then apiKeyError
            else businessIdError), [])
      ∧ _apiPut answeringPlatform (setApiKey State.initial "key") "bus" "/payrun" jsonA1 none []
        = (.error (if falsy (setApiKey State.initial "key").apiKey then apiKeyError
            else businessIdError), []))
      ∧ (setApiKey (setApiKey State.initial "key") "other").apiKey = some "other"
      ∧ (setApiKey (setApiKey State.initial "key") "other").businessId
        = (setApiKey State.initial "key").businessId
      ∧ (setBusinessId (setApiKey State.initial "key") "other").businessId = some "other"
      ∧ (setBusinessId (setApiKey State.initial "key") "other").apiKey
        = (setApiKey State.initial "key").apiKey :=
  scoped_call_fails_fast_without_credentials answeringPlatform (setApiKey State.initial "key")
    "/payrun" jsonA1 none [] "other" (Or.inr ⟨rfl, rfl⟩)

/-! ## Pagination -/

/-- A business-scoped GET without query object whose first fetch is answered with code 200 and
a body that parses: the parsed body is returned after that one fetch. -/
theorem apiGet_bus_ok {J : Type} (P : Platform J) (st : State) (apiUrl : String) (log : Log)
    (n : Nat) (v : J) (hkey : falsy st.apiKey = false) (hbus : falsy st.businessId = false)
    (hn : log.length = n)
    (hfetch : ∀ url options, ∃ response, P.fetch n url options = some response
      ∧ response.code = 200 ∧ P.jsonParse response.content = .ok v) :
    _apiGet P st "bus" apiUrl none log
      = (.ok (.parsed v),
          log ++ [⟨"https://api.yourpayroll.com.au/api/v2/business/" ++ strOf st.businessId
            ++ apiUrl, getOptions P st⟩]) := by
  subst hn
  obtain ⟨response, hf, hc, hp⟩ := hfetch
    ("https://api.yourpayroll.com.au/api/v2/business/" ++ strOf st.businessId ++ apiUrl)
    (getOptions P st)
  have ht : _tryCall P
      ("https://api.yourpayroll.com.au/api/v2/business/" ++ strOf st.businessId ++ apiUrl)
      (getOptions P st) log = (.ok response, log ++ [⟨_, getOptions P st⟩]) :=
    tryCallLoop_ok P _ _ response 0 (maxAttempts - 0) 0 log (by decide)
      (fun j hj => absurd hj (Nat.not_lt_zero j)) (by simpa using hf)
  unfold _apiGet
  simp only [hkey, urlBaseGet, hbus, concatUrl]
  simp [ht, hc, hp]

theorem listEmployeesLoop_step {R : Type} (P : Platform (List R)) (st : State)
    (schedStr : String) (fuel page : Nat) (xs : List R) (emps : List (Emp R)) (log log1 : Log)
    (response1 : GetResult (List R)) (hxs : xs ≠ [])
    (hget : _apiGet P st "bus"
      ("/employee/unstructured" ++ ("?$top=100&$skip=" ++ toString (100 * page) ++ schedStr))
      none log = (.ok response1, log1)) :
    listEmployeesLoop P st schedStr (fuel + 1) (.parsed xs) emps page log
      = listEmployeesLoop P st schedStr fuel response1 (concatEmps emps response1) (page + 1)
          log1 := by
  have hlen : xs.length ≠ 0 := fun h => hxs (List.length_eq_zero.mp h)
  simp [listEmployeesLoop, GetResult.truthy, GetResult.lengthNeZero, hlen, hget]

theorem listEmployeesLoop_stop_empty {R : Type} (P : Platform (List R)) (st : State)
    (schedStr : String) (fuel page : Nat) (emps : List (Emp R)) (log : Log) :
    listEmployeesLoop P st schedStr (fuel + 1) (.parsed []) emps page log
      = some (.ok emps, log) := by
  simp [listEmployeesLoop, GetResult.truthy, GetResult.lengthNeZero]

theorem listEmployeesLoop_stop_false {R : Type} (P : Platform (List R)) (st : State)
    (schedStr : String) (fuel page : Nat) (emps : List (Emp R)) (log : Log) :
    listEmployeesLoop P st schedStr (fuel + 1) .sentinelFalse emps page log
      = some (.ok emps, log) := by
  simp [listEmployeesLoop, GetResult.truthy]

/-- One turn of the loop whose GET is answered with code 200 and a parsed page. -/
theorem listEmployeesLoop_step_ok {R : Type} (P : Platform (List R)) (st : State)
    (schedStr : String) (fuel page n : Nat) (xs v : List R) (emps : List (Emp R)) (log : Log)
    (hxs : xs ≠ []) (hkey : falsy st.apiKey = false) (hbus : falsy st.businessId = false)
    (hn : log.length = n)
    (hfetch : ∀ url options, ∃ response, P.fetch n url options = some response
      ∧ response.code = 200 ∧ P.jsonParse response.content = .ok v) :
    ∃ call, listEmployeesLoop P st schedStr (fuel + 1) (.parsed xs) emps page log
      = listEmployeesLoop P st schedStr fuel (.parsed v) (emps ++ v.map Emp.record) (page + 1)
          (log ++ [call]) :=
  ⟨_, listEmployeesLoop_step P st schedStr fuel page xs emps log _ _ hxs
    (apiGet_bus_ok P st _ log n v hkey hbus hn hfetch)⟩

/-- Five GET answers with code 200 whose bodies parse to a non-empty probe, three non-empty
pages and an empty page: the result is the three pages, the probe is not in it, and five fetch
calls were issued. -/
theorem listEmployees_five_answers {R : Type} (P : Platform (List R)) (st : State)
    (payScheduleId : Option String) (log : Log) (pages : Nat → List R)
    (hkey : falsy st.apiKey = false) (hbus : falsy st.businessId = false)
    (hfetch : ∀ i, i < 5 → ∀ url options, ∃ response,
      P.fetch (log.length + i) url options = some response ∧ response.code = 200
        ∧ P.jsonParse response.content = .ok (pages i))
    (h0 : pages 0 ≠ []) (h1 : pages 1 ≠ []) (h2 : pages 2 ≠ []) (h3 : pages 3 ≠ [])
    (h4 : pages 4 = []) (fuel : Nat) (hfuel : 5 ≤ fuel) :
    ∃ log1, listEmployeesByPayschedule P st payScheduleId fuel log
        = some (.ok ((pages 1 ++ pages 2 ++ pages 3).map Emp.record), log1)
      ∧ log1.length = log.length + 5 := by
  obtain ⟨f, rfl⟩ : ∃ f, fuel = f + 5 := ⟨fuel - 5, by omega⟩
  obtain ⟨c0, g0⟩ : ∃ c0, _apiGet P st "bus"
      ("/employee/unstructured" ++ ("?$top=1" ++ paySchedStr payScheduleId)) none log
      = (.ok (.parsed (pages 0)), log ++ [c0]) :=
    ⟨_, apiGet_bus_ok P st _ log _ (pages 0) hkey hbus rfl (by simpa using hfetch 0 (by decide))⟩
  obtain ⟨c1, e1⟩ := listEmployeesLoop_step_ok P st (paySchedStr payScheduleId) (f + 4) 0
    (log.length + 1) (pages 0) (pages 1) [] (log ++ [c0]) h0 hkey hbus (by simp)
    (hfetch 1 (by decide))
  obtain ⟨c2, e2⟩ := listEmployeesLoop_step_ok P st (paySchedStr payScheduleId) (f + 3) 1
    (log.length + 2) (pages 1) (pages 2) ([] ++ (pages 1).map Emp.record) (log ++ [c0] ++ [c1])
    h1 hkey hbus (by simp) (hfetch 2 (by decide))
  obtain ⟨c3, e3⟩ := listEmployeesLoop_step_ok P st (paySchedStr payScheduleId) (f + 2) 2
    (log.length + 3) (pages 2) (pages 3)
    ([] ++ (pages 1).map Emp.record ++ (pages 2).map Emp.record) (log ++ [c0] ++ [c1] ++ [c2])
    h2 hkey hbus (by simp) (hfetch 3 (by decide))
  obtain ⟨c4, e4⟩ := listEmployeesLoop_step_ok P st (paySchedStr payScheduleId) (f + 1) 3
    (log.length + 4) (pages 3) (pages 4)
    ([] ++ (pages 1).map Emp.record ++ (pages 2).map Emp.record ++ (pages 3).map Emp.record)
    (log ++ [c0] ++ [c1] ++ [c2] ++ [c3])
    h3 hkey hbus (by simp) (hfetch 4 (by decide))
  refine ⟨log ++ [c0] ++ [c1] ++ [c2] ++ [c3] ++ [c4], ?_, by simp⟩
  simp only [listEmployeesByPayschedule, g0]
  rw [e1, e2, e3, e4, h4, listEmployeesLoop_stop_empty]
  simp

/-- The paged host answers call `i` with code 200 and page `i`. -/
theorem pagedPlatform_answers (i : Nat) (url : String) (options : Options) :
    ∃ response, pagedPlatform.fetch (([] : Log).length + i) url options = some response
      ∧ response.code = 200 ∧ pagedPlatform.jsonParse response.content = .ok (samplePages i) :=
  ⟨_, rfl, rfl, by
    have hlen : (String.mk (List.replicate (([] : Log).length + i) 'p')).length = i := by
      show (List.replicate _ 'p').length = i
      simp
    show Except.ok (samplePages (String.mk (List.replicate _ 'p')).length) = _
    rw [hlen]⟩

/-- C6 (as stated, refuted): with page answers of sizes [1, 100, 100, 37, 0] the result does not
always hold 238 records: on the paged host it holds 237. -/
theorem listEmployees_238_records_refuted :
    ¬ (∀ (P : Platform (List Nat)) (st : State) (payScheduleId : Option String) (log : Log)
        (pages : Nat → List Nat),
        falsy st.apiKey = false → falsy st.businessId = false →
        (∀ i, i < 5 → ∀ url options, ∃ response,
          P.fetch (log.length + i) url options = some response ∧ response.code = 200
            ∧ P.jsonParse response.content = .ok (pages i)) →
        (List.range 5).map (fun i => (pages i).length) = [1, 100, 100, 37, 0] →
        ∀ fuel, 5 ≤ fuel →
          ∃ emps log1, listEmployeesByPayschedule P st payScheduleId fuel log
              = some (.ok emps, log1)
            ∧ emps.length = 238 ∧ log1.length = log.length + 5) := by
  intro h
  obtain ⟨emps, log1, he, hlen, -⟩ := h pagedPlatform readyState none [] samplePages rfl rfl
    (fun i _ url options => pagedPlatform_answers i url options) (by decide) 5 (Nat.le_refl 5)
  obtain ⟨log2, he2, -⟩ := listEmployees_five_answers pagedPlatform readyState none []
    samplePages rfl rfl (fun i _ url options => pagedPlatform_answers i url options)
    (by decide) (by decide) (by decide) (by decide) rfl 5 (Nat.le_refl 5)
  rw [he2] at he
  have hemps : emps = (samplePages 1 ++ samplePages 2 ++ samplePages 3).map Emp.record := by
    injection he with he
    injection he with he _
    injection he with he
    exact he.symm
  rw [hemps] at hlen
  simp [samplePages] at hlen

/-- C6 (amended): with five GET answers of code 200 whose bodies parse to pages of sizes
[1, 100, 100, 37, 0], `listEmployeesByPayschedule` returns, given fuel for its five loop tests,
the concatenation of the three pages that follow the probe, a list of exactly 237 records, and
issues exactly 5 fetch calls. -/
theorem listEmployees_five_pages_237 {R : Type} (P : Platform (List R)) (st : State)
    (payScheduleId : Option String) (log : Log) (pages : Nat → List R)
    (hkey : falsy st.apiKey = false) (hbus : falsy st.businessId = false)
    (hfetch : ∀ i, i < 5 → ∀ url options, ∃ response,
      P.fetch (log.length + i) url options = some response ∧ response.code = 200
        ∧ P.jsonParse response.content = .ok (pages i))
    (hsizes : (List.range 5).map (fun i => (pages i).length) = [1, 100, 100, 37, 0])
    (fuel : Nat) (hfuel : 5 ≤ fuel) :
    ∃ emps log1, listEmployeesByPayschedule P st payScheduleId fuel log = some (.ok emps, log1)
      ∧ emps = (pages 1 ++ pages 2 ++ pages 3).map Emp.record
      ∧ emps.length = 237 ∧ log1.length = log.length + 5 := by
  have hs : (pages 0).length = 1 ∧ (pages 1).length = 100 ∧ (pages 2).length = 100
      ∧ (pages 3).length = 37 ∧ (pages 4).length = 0 := by
    simpa [List.range, List.range.loop] using hsizes
  obtain ⟨s0, s1, s2, s3, s4⟩ := hs
  have ne : ∀ i n, (pages i).length = n + 1 → pages i ≠ [] := by
    intro i n hl hnil
    rw [hnil] at hl
    simp at hl
  obtain ⟨log1, he, hl⟩ := listEmployees_five_answers P st payScheduleId log pages hkey hbus
    hfetch (ne 0 0 s0) (ne 1 99 s1) (ne 2 99 s2) (ne 3 36 s3) (List.length_eq_zero.mp s4)
    fuel hfuel
  exact ⟨_, log1, he, rfl, by simp [s1, s2, s3], hl⟩

theorem listEmployees_five_pages_237_witness :
    ∃ emps log1, listEmployeesByPayschedule pagedPlatform readyState none 5 []
        = some (.ok emps, log1)
      ∧ emps = (samplePages 1 ++ samplePages 2 ++ samplePages 3).map Emp.record
      ∧ emps.length = 237 ∧ log1.length = ([] : Log).length + 5 :=
  listEmployees_five_pages_237 pagedPlatform readyState none [] samplePages rfl rfl
    (fun i _ url options => pagedPlatform_answers i url options) (by decide) 5 (Nat.le_refl 5)

/-! ## Query parameters -/

/-- A string that starts with a non-empty string is not empty. -/
theorem string_append_ne_empty (s t : String) (h : s ≠ "") : s ++ t ≠ "" := by
  intro h2
  apply h
  have h3 := congrArg String.data h2
  simp only [String.data_append] at h3
  exact String.ext (List.append_eq_nil.mp h3).1

theorem convertObjToUrl_go {J : Type} (P : Platform J) :
    ∀ (obj : List (String × QVal)) (acc : String), acc ≠ "" →
      obj.foldl (fun str kv =>
          (if str != "" then str ++ "&" else str)
            ++ ((if kv.1 == "filter" then "$" ++ kv.1 else kv.1) ++ "="
              ++ P.encodeURI kv.2.toStr)) acc
        = String.intercalate.go acc "&" (obj.map (fun kv =>
            (if kv.1 = "filter" then "$filter" else kv.1) ++ "=" ++ P.encodeURI kv.2.toStr)) := by
  intro obj
  induction obj with
  | nil => intro acc _; rfl
  | cons kv rest ih =>
    intro acc hacc
    have hkey : (if kv.1 == "filter" then "$" ++ kv.1 else kv.1)
        = (if kv.1 = "filter" then "$filter" else kv.1) := by
      by_cases hk : kv.1 = "filter"
      · simp only [hk, beq_self_eq_true, if_true]
        rfl
      · simp [hk]
    simp only [List.foldl_cons, List.map_cons, String.intercalate.go, hkey]
    have hne : (acc != "") = true := by simpa using hacc
    rw [hne]
    simp only [if_true]
    exact ih _ (string_append_ne_empty _ _ (string_append_ne_empty _ _ hacc))

/-- The loop of `_convertObjToUrl` gives the `key=value` texts of the properties, in the order it
visits them, joined by `&`. -/
theorem convertObjToUrl_join {J : Type} (P : Platform J) (obj : List (String × QVal)) :
    _convertObjToUrl P obj
      = "&".intercalate (obj.map (fun kv =>
          (if kv.1 = "filter" then "$filter" else kv.1) ++ "=" ++ P.encodeURI kv.2.toStr)) := by
  cases obj with
  | nil => rfl
  | cons kv rest =>
    have hkey : (if kv.1 == "filter" then "$" ++ kv.1 else kv.1)
        = (if kv.1 = "filter" then "$filter" else kv.1) := by
      by_cases hk : kv.1 = "filter"
      · simp only [hk, beq_self_eq_true, if_true]
        rfl
      · simp [hk]
    have hne : (if kv.1 = "filter" then "$filter" else kv.1) ++ "="
        ++ P.encodeURI kv.2.toStr ≠ "" := by
      intro h
      have h3 := congrArg String.length h
      simp only [String.length_append] at h3
      have h4 : "=".length = 1 := rfl
      have h5 : "".length = 0 := rfl
      omega
    simp only [_convertObjToUrl, List.foldl_cons, List.map_cons, String.intercalate, hkey]
    have hempty : (("" : String) != "") = false := by decide
    rw [hempty]
    simp only [Bool.false_eq_true, if_false, String.empty_append]
    exact convertObjToUrl_go P rest _ hne

/-- C7 (as stated, refuted): the parameters do not always come in insertion order. The object
built by inserting `top`, `10`, `2` in that order is visited as `2`, `10`, `top`, and the result
is `2=b&10=a&top=1`, not `top=1&10=a&2=b`. -/
theorem convertObjToUrl_not_insertion_order :
    ¬ (∀ (ins : List (String × QVal)), (ins.map Prod.fst).Nodup →
        "__proto__" ∉ ins.map Prod.fst →
        _convertObjToUrl encodingPlatform (Js.Obj.ofInsertions ins)
          = "&".intercalate (ins.map (fun kv =>
              (if kv.1 = "filter" then "$filter" else kv.1) ++ "="
                ++ encodingPlatform.encodeURI kv.2.toStr))) := by
  intro h
  have h1 := h [("top", .num 1 (by decide)), ("10", .str "a"), ("2", .str "b")] (by decide)
    (by decide)
  have h2 : _convertObjToUrl encodingPlatform
      (Js.Obj.ofInsertions [("top", .num 1 (by decide)), ("10", .str "a"), ("2", .str "b")])
      = "2=b&10=a&top=1" := by decide
  have h3 : "&".intercalate ([("top", QVal.num 1 (by decide)), ("10", QVal.str "a"),
        ("2", QVal.str "b")].map (fun kv =>
          (if kv.1 = "filter" then "$filter" else kv.1) ++ "="
            ++ encodingPlatform.encodeURI kv.2.toStr))
      = "top=1&10=a&2=b" := by decide
  rw [h2, h3] at h1
  exact absurd h1 (by decide)

/-- C7 (amended): `_convertObjToUrl` gives the properties in the order `for (var key in obj)`
visits them as `key=value` texts joined by `&`; a key `filter` is written `$filter`, every other
key as it is, and every value goes through `encodeURI`. For an object built by inserting
pairwise distinct keys other than `__proto__`, the visiting order lists the keys that are array
indices first, ascending, and then the other keys in insertion order; it is the insertion order
itself when no key is an array index. The empty object gives the empty string, and
`{filter: "x", top: 1}` gives `$filter=x&top=1` when `encodeURI` leaves `x` and `1` as they
are. -/
theorem convertObjToUrl_joins_pairs {J : Type} (P : Platform J) (obj : List (String × QVal)) :
    _convertObjToUrl P obj
        = "&".intercalate (obj.map (fun kv =>
            (if kv.1 = "filter" then "$filter" else kv.1) ++ "=" ++ P.encodeURI kv.2.toStr))
      ∧ _convertObjToUrl P [] = ""
      ∧ (P.encodeURI "x" = "x" → P.encodeURI "1" = "1" →
          _convertObjToUrl P (Js.Obj.ofInsertions [("filter", .str "x"), ("top", .num 1 (by decide))])
            = "$filter=x&top=1")
      ∧ ((obj.map Prod.fst).Nodup → "__proto__" ∉ obj.map Prod.fst →
          List.Perm (Js.Obj.ofInsertions obj) obj
          ∧ (Js.Obj.ofInsertions obj).Ordered
          ∧ (Js.Obj.ofInsertions obj).filter (fun kv => (Js.arrayIndex? kv.1).isNone)
            = obj.filter (fun kv => (Js.arrayIndex? kv.1).isNone))
      ∧ ((obj.map Prod.fst).Nodup → "__proto__" ∉ obj.map Prod.fst →
          (∀ kv, kv ∈ obj → Js.arrayIndex? kv.1 = none) →
          Js.Obj.ofInsertions obj = obj
          ∧ _convertObjToUrl P (Js.Obj.ofInsertions obj)
            = "&".intercalate (obj.map (fun kv =>
                (if kv.1 = "filter" then "$filter" else kv.1) ++ "="
                  ++ P.encodeURI kv.2.toStr))) := by
  have hid : obj.map (fun x => (x.1, x.2)) = obj := by simp
  refine ⟨convertObjToUrl_join P obj, rfl, ?_, ?_, ?_⟩
  · intro hx h1
    have hins : Js.Obj.ofInsertions [("filter", QVal.str "x"), ("top", QVal.num 1 (by decide))]
        = [("filter", QVal.str "x"), ("top", QVal.num 1 (by decide))] := by decide
    rw [hins]
    simp only [_convertObjToUrl, List.foldl_cons, List.foldl_nil, QVal.toStr, hx]
    rw [show toString (1 : Int) = "1" from rfl, h1]
    rfl
  · intro hnd _
    refine ⟨?_, Js.Obj.foldl_set_ordered Prod.fst Prod.snd obj, ?_⟩
    · have h := Js.Obj.foldl_set_perm Prod.fst Prod.snd obj hnd
      rw [hid] at h
      exact h
    · have h := Js.Obj.foldl_set_filter_plain Prod.fst Prod.snd obj hnd
      rw [hid] at h
      exact h
  · intro hnd _ hplain
    have h := Js.Obj.foldl_set_of_plain Prod.fst Prod.snd obj hnd hplain
    rw [hid] at h
    have h1 : Js.Obj.ofInsertions obj = obj := h
    exact ⟨h1, by rw [h1]; exact convertObjToUrl_join P obj⟩

theorem convertObjToUrl_joins_pairs_witness :
    _convertObjToUrl encodingPlatform [("filter", .str "a b"), ("top", .num 1 (by decide))]
        = "$filter=a%20b&top=1"
      ∧ _convertObjToUrl encodingPlatform [] = ""
      ∧ _convertObjToUrl encodingPlatform
          (Js.Obj.ofInsertions [("filter", .str "x"), ("top", .num 1 (by decide))])
        = "$filter=x&top=1"
      ∧ Js.Obj.ofInsertions [("top", QVal.num 1 (by decide)), ("10", .str "a"), ("2", .str "b")]
          = [("2", .str "b"), ("10", .str "a"), ("top", .num 1 (by decide))]
      ∧ (Js.Obj.ofInsertions [("top", QVal.num 1 (by decide)), ("10", .str "a"),
          ("2", .str "b")]).Ordered
      ∧ Js.Obj.ofInsertions [("filter", QVal.str "a b"), ("top", .num 1 (by decide))]
          = [("filter", .str "a b"), ("top", .num 1 (by decide))] :=
  ⟨(convertObjToUrl_joins_pairs encodingPlatform
      [("filter", .str "a b"), ("top", .num 1 (by decide))]).1,
    (convertObjToUrl_joins_pairs encodingPlatform []).2.1,
    (convertObjToUrl_joins_pairs encodingPlatform []).2.2.1 rfl rfl,
    by decide,
    ((convertObjToUrl_joins_pairs encodingPlatform
      [("top", .num 1 (by decide)), ("10", .str "a"), ("2", .str "b")]).2.2.2.1
        (by decide) (by decide)).2.1,
    ((convertObjToUrl_joins_pairs encodingPlatform
      [("filter", .str "a b"), ("top", .num 1 (by decide))]).2.2.2.2
        (by decide) (by decide) (by decide)).1⟩

end Keypay

namespace CD

open Js

/-! ## First-seen order -/

theorem mem_firstSeen (ks : List String) (k : String) : k ∈ firstSeen ks ↔ k ∈ ks := by
  induction ks with
  | nil => simp [firstSeen]
  | cons a rest ih =>
    by_cases h : k = a
    · simp [firstSeen, h]
    · simp [firstSeen, h, ih]

theorem nodup_firstSeen (ks : List String) : (firstSeen ks).Nodup := by
  induction ks with
  | nil => simp [firstSeen]
  | cons a rest ih =>
    simp only [firstSeen, List.nodup_cons]
    exact ⟨by simp [List.mem_filter], ih.filter _⟩

theorem firstSeen_append_singleton (ks : List String) (k : String) :
    firstSeen (ks ++ [k]) = if k ∈ ks then firstSeen ks else firstSeen ks ++ [k] := by
  induction ks with
  | nil => simp [firstSeen]
  | cons a rest ih =>
    have hc : firstSeen (a :: rest ++ [k])
        = a :: (firstSeen (rest ++ [k])).filter (fun k1 => k1 ≠ a) := rfl
    rw [hc, ih]
    simp only [firstSeen]
    by_cases h : k ∈ rest
    · simp [h]
    · by_cases ha : k = a
      · subst ha
        simp [h, List.filter_append]
      · simp [h, ha, List.filter_append]

/-! ## What a row reads -/

theorem get_of_own (r : Record) (k : String) (v : Value) (h : Obj.get? r k = some v) :
    r.get k = v := by
  simp [Record.get, h]

theorem get_of_lacking (r : Record) (k : String) (h : Obj.get? r k = none)
    (hk : k ∉ objectPrototypeNames) : r.get k = .undefined := by
  simp [Record.get, h, hk]

theorem get_of_inherited (r : Record) (k : String) (h : Obj.get? r k = none)
    (hk : k ∈ objectPrototypeNames) : r.get k = .inherited k := by
  simp [Record.get, h, hk]

/-! ## `rows2obj` without combining -/

theorem rows2obj_single_fold (idColName : String) (rows : List Record) :
    (rows.foldl (rows2objStepSingle idColName) ([], none)).1
        = (rows.filter (fun r => groupKey idColName r ≠ "__proto__")).foldl
            (fun o r => Obj.set o (groupKey idColName r) r) []
      ∧ (rows.foldl (rows2objStepSingle idColName) ([], none)).2
        = lastWithKey idColName rows "__proto__" := by
  induction rows using List.reverseRecOn with
  | nil => exact ⟨rfl, rfl⟩
  | append_singleton rows r ih =>
    obtain ⟨ih1, ih2⟩ := ih
    rw [List.foldl_append, List.foldl_cons, List.foldl_nil, List.filter_append,
      List.foldl_append, ← ih1]
    unfold lastWithKey at ih2 ⊢
    rw [List.filter_append]
    by_cases h : groupKey idColName r = "__proto__"
    · have h1 : (r.get idColName).toKey = "__proto__" := h
      simp [rows2objStepSingle, h, h1, List.filter_cons]
    · have h1 : ¬ (r.get idColName).toKey = "__proto__" := h
      simp [rows2objStepSingle, h, h1, List.filter_cons, ih2, groupKey]

theorem filter_key_of_filter_ne (idColName : String) (rows : List Record) (k : String)
    (hk : k ≠ "__proto__") :
    (rows.filter (fun r => groupKey idColName r ≠ "__proto__")).filter
        (fun r => groupKey idColName r = k)
      = rows.filter (fun r => groupKey idColName r = k) := by
  rw [List.filter_filter]
  apply List.filter_congr
  intro r _
  by_cases e : groupKey idColName r = k
  · simp [e, hk]
  · simp [e]

/-- C9 (as stated, refuted): a row without the key field and a row whose key field is the
string `undefined` have distinct key values, yet they share the one property `undefined`, which
holds the second row; the first row, the last one with its key value, is in no entry. -/
theorem rows2obj_single_merges_distinct_values :
    rows2obj [[("v", .str "1")], [("id", .str "undefined"), ("v", .str "2")]] "id" false
        = .ok (.single [("undefined", [("id", .str "undefined"), ("v", .str "2")])] none)
      ∧ Record.get [("v", .str "1")] "id" = .undefined
      ∧ Record.get [("id", .str "undefined"), ("v", .str "2")] "id" = .str "undefined"
      ∧ Value.undefined ≠ Value.str "undefined" :=
  ⟨rfl, rfl, rfl, by decide⟩

/-- What `rows2obj(rows, idColName, false)` builds, for every input. -/
theorem rows2obj_single_general (rows : List Record) (idColName : String) :
    ∃ own proto, rows2obj rows idColName false = .ok (.single own proto)
      ∧ own.Ordered
      ∧ (∀ k, k ∈ own.keys ↔ k ≠ "__proto__" ∧ ∃ r, r ∈ rows ∧ groupKey idColName r = k)
      ∧ (∀ k, k ≠ "__proto__" → Obj.get? own k = lastWithKey idColName rows k)
      ∧ proto = lastWithKey idColName rows "__proto__" := by
  obtain ⟨hown, hproto⟩ := rows2obj_single_fold idColName rows
  have hord : ((rows.foldl (rows2objStepSingle idColName) ([], none)).1).Ordered := by
    rw [hown]
    exact Obj.foldl_set_ordered _ _ _
  have hmem : ∀ k, k ∈ ((rows.foldl (rows2objStepSingle idColName) ([], none)).1).keys
      ↔ k ≠ "__proto__" ∧ ∃ r, r ∈ rows ∧ groupKey idColName r = k := by
    intro k
    rw [hown, Obj.foldl_set_mem_keys]
    simp only [List.mem_map, List.mem_filter, decide_eq_true_eq]
    constructor
    · rintro ⟨r, ⟨hr, hne⟩, rfl⟩
      exact ⟨hne, r, hr, rfl⟩
    · rintro ⟨hne, r, hr, rfl⟩
      exact ⟨r, ⟨hr, hne⟩, rfl⟩
  have hget : ∀ k, k ≠ "__proto__" →
      Obj.get? (rows.foldl (rows2objStepSingle idColName) ([], none)).1 k
        = lastWithKey idColName rows k := by
    intro k hk
    rw [hown, Obj.foldl_set_get?, filter_key_of_filter_ne idColName rows k hk]
    simp [lastWithKey]
  exact ⟨_, _, by simp [rows2obj], hord, hmem, hget, hproto⟩

/-- C9 (amended): when no row is filed under the name `__proto__`, `rows2obj(rows, idColName,
false)` gives an object with exactly one own property for each distinct string form of the key
field occurring in the input, and no other: key values are told apart by their string form only
(a row that reads `undefined` for the key field is filed under `undefined`, like a row holding
that string), the names are pairwise distinct and in visiting order. The property for the
string form `k` holds the last row in input order whose key field has the string form `k`. -/
theorem rows2obj_single_last_wins (rows : List Record) (idColName : String)
    (hsafe : ∀ r, r ∈ rows → groupKey idColName r ≠ "__proto__") :
    ∃ own proto, rows2obj rows idColName false = .ok (.single own proto)
      ∧ proto = none
      ∧ own.keys.Nodup
      ∧ own.Ordered
      ∧ (∀ k, k ∈ own.keys ↔ ∃ r, r ∈ rows ∧ groupKey idColName r = k)
      ∧ own.length = ((rows.map (groupKey idColName)).dedup).length
      ∧ (∀ k, Obj.get? own k = lastWithKey idColName rows k)
      ∧ (∀ k r, Obj.get? own k = some r → r ∈ rows ∧ groupKey idColName r = k)
      ∧ (∀ r v, r ∈ rows → Obj.get? r idColName = some v → groupKey idColName r = v.toKey)
      ∧ (∀ r, r ∈ rows → Obj.get? r idColName = none → idColName ∉ objectPrototypeNames →
          groupKey idColName r = "undefined") := by
  obtain ⟨own, proto, h1, hord, hmem, hget, hproto⟩ := rows2obj_single_general rows idColName
  have hnone : lastWithKey idColName rows "__proto__" = none := by
    unfold lastWithKey
    rw [List.getLast?_eq_none_iff, List.filter_eq_nil_iff]
    intro r hr hk
    exact hsafe r hr (by simpa using hk)
  have hmem1 : ∀ k, k ∈ own.keys ↔ ∃ r, r ∈ rows ∧ groupKey idColName r = k := by
    intro k
    rw [hmem k]
    constructor
    · exact fun h => h.2
    · rintro ⟨r, hr, rfl⟩
      exact ⟨hsafe r hr, r, hr, rfl⟩
  have hget1 : ∀ k, Obj.get? own k = lastWithKey idColName rows k := by
    intro k
    by_cases hk : k = "__proto__"
    · subst hk
      rw [hnone, Obj.get?_eq_none_iff, hmem]
      exact fun h => h.1 rfl
    · exact hget k hk
  refine ⟨own, proto, h1, by rw [hproto, hnone], hord.nodup, hord, hmem1, ?_, hget1, ?_, ?_, ?_⟩
  · have hperm : List.Perm own.keys ((rows.map (groupKey idColName)).dedup) := by
      refine (List.perm_ext_iff_of_nodup hord.nodup (List.nodup_dedup _)).mpr ?_
      intro k
      rw [hmem1, List.mem_dedup, List.mem_map]
    have := hperm.length_eq
    simpa [Obj.keys] using this
  · intro k r h
    rw [hget1 k, lastWithKey] at h
    have hm := List.mem_of_getLast?_eq_some h
    simpa [List.mem_filter] using hm
  · intro r v _ hv
    simp [groupKey, get_of_own r idColName v hv]
  · intro r _ hnone1 hplain
    simp [groupKey, get_of_lacking r idColName hnone1 hplain, Value.toKey]

theorem rows2obj_single_last_wins_witness :
    ∃ own proto,
      rows2obj [[("id", .str "b"), ("v", .str "1")], [("id", .str "7"), ("v", .str "2")],
          [("v", .str "3"), ("id", .str "b")], [("v", .str "4")]] "id" false
        = .ok (.single own proto)
      ∧ proto = none
      ∧ own.keys = ["7", "b", "undefined"]
      ∧ Obj.get? own "b" = some [("v", .str "3"), ("id", .str "b")]
      ∧ Obj.get? own "7" = some [("id", .str "7"), ("v", .str "2")]
      ∧ Obj.get? own "undefined" = some [("v", .str "4")]
      ∧ Obj.get? own "v" = none := by
  obtain ⟨own, proto, h1, hproto, _, _, _, _, hget, _⟩ :=
    rows2obj_single_last_wins
      [[("id", .str "b"), ("v", .str "1")], [("id", .str "7"), ("v", .str "2")],
        [("v", .str "3"), ("id", .str "b")], [("v", .str "4")]] "id" (by decide)
  refine ⟨own, proto, h1, hproto, ?_, by rw [hget]; decide, by rw [hget]; decide,
    by rw [hget]; decide, by rw [hget]; decide⟩
  have h2 : rows2obj [[("id", .str "b"), ("v", .str "1")], [("id", .str "7"), ("v", .str "2")],
        [("v", .str "3"), ("id", .str "b")], [("v", .str "4")]] "id" false
      = .ok (.single [("7", [("id", .str "7"), ("v", .str "2")]),
          ("b", [("v", .str "3"), ("id", .str "b")]), ("undefined", [("v", .str "4")])]
          none) := rfl
  rw [h2] at h1
  injection h1 with h1
  injection h1 with h3 h4
  rw [← h3]
  rfl

/-! ## `rows2obj` with combining -/

theorem rowsWithKey_append_singleton (idColName : String) (rows : List Record) (r : Record)
    (k : String) :
    rowsWithKey idColName (rows ++ [r]) k
      = if groupKey idColName r = k then rowsWithKey idColName rows k ++ [r]
        else rowsWithKey idColName rows k := by
  by_cases h : groupKey idColName r = k <;> simp [rowsWithKey, List.filter_append, h]

theorem rowsWithKey_eq_nil (idColName : String) (rows : List Record) (k : String)
    (h : k ∉ rows.map (groupKey idColName)) : rowsWithKey idColName rows k = [] := by
  simp only [rowsWithKey, List.filter_eq_nil_iff]
  intro r hr hk
  exact h (List.mem_map.mpr ⟨r, hr, by simpa using hk⟩)

/-- Concatenating, over pairwise distinct keys that cover every row, the rows filed under each
key gives a permutation of the rows. -/
theorem flatMap_rowsWithKey_perm (idColName : String) :
    ∀ (L : List String), L.Nodup → ∀ (rows : List Record),
      (∀ r, r ∈ rows → groupKey idColName r ∈ L) →
      List.Perm (L.flatMap (fun k => rowsWithKey idColName rows k)) rows := by
  intro L
  induction L with
  | nil =>
    intro _ rows hcov
    cases rows with
    | nil => simp
    | cons r rest => exact absurd (hcov r (List.mem_cons_self _ _)) (List.not_mem_nil _)
  | cons k L ih =>
    intro hnd rows hcov
    obtain ⟨hk, hL⟩ := List.nodup_cons.mp hnd
    have hrest : L.flatMap (fun k1 => rowsWithKey idColName rows k1)
        = L.flatMap (fun k1 => rowsWithKey idColName
            (rows.filter (fun r => !decide (groupKey idColName r = k))) k1) := by
      simp only [List.flatMap, rowsWithKey]
      congr 1
      apply List.map_congr_left
      intro k1 hk1
      have hne : k1 ≠ k := fun e => hk (e ▸ hk1)
      rw [List.filter_filter]
      apply List.filter_congr
      intro r _
      by_cases e : groupKey idColName r = k1
      · have e2 : ¬ groupKey idColName r = k := fun x => hne (e ▸ x)
        simp [e, e2, hne]
      · simp [e]
    have hih := ih hL (rows.filter (fun r => !decide (groupKey idColName r = k))) (by
      intro r hr
      obtain ⟨hr1, hr2⟩ := List.mem_filter.mp hr
      rcases List.mem_cons.mp (hcov r hr1) with e | e
      · simp [e] at hr2
      · exact e)
    rw [List.flatMap_cons, hrest]
    exact (List.Perm.append_left _ hih).trans
      (List.filter_append_perm (fun r => decide (groupKey idColName r = k)) rows)

/-- Filtering that concatenation by one key gives back the rows filed under that key. -/
theorem filter_flatMap_rowsWithKey (idColName : String) (rows : List Record) (k : String) :
    ∀ (L : List String), L.Nodup →
      (L.flatMap (fun k1 => rowsWithKey idColName rows k1)).filter
          (fun r => groupKey idColName r = k)
        = if k ∈ L then rowsWithKey idColName rows k else [] := by
  intro L
  induction L with
  | nil => intro _; simp
  | cons a L ih =>
    intro hnd
    obtain ⟨ha, hL⟩ := List.nodup_cons.mp hnd
    rw [List.flatMap_cons, List.filter_append, ih hL]
    have hhead : (rowsWithKey idColName rows a).filter (fun r => groupKey idColName r = k)
        = if a = k then rowsWithKey idColName rows k else [] := by
      by_cases e : a = k
      · subst e
        simp [rowsWithKey, List.filter_filter]
      · rw [if_neg e, rowsWithKey, List.filter_filter, List.filter_eq_nil_iff]
        intro r _ hr
        simp only [Bool.and_eq_true, decide_eq_true_eq] at hr
        exact e (hr.2 ▸ hr.1)
    rw [hhead]
    by_cases e : a = k
    · subst e
      simp [ha]
    · have e1 : ¬ k = a := fun x => e x.symm
      simp [e, e1]

theorem rowsWithKey_cons (idColName : String) (r : Record) (rows : List Record) (k : String) :
    rowsWithKey idColName (r :: rows) k
      = if groupKey idColName r = k then r :: rowsWithKey idColName rows k
        else rowsWithKey idColName rows k := by
  by_cases h : groupKey idColName r = k <;> simp [rowsWithKey, List.filter_cons, h]

/-- One turn of the combining loop: it throws when the row is filed under a member of
`Object.prototype` the object has not as its own property, and otherwise appends the row to the
array of its name, new or not. -/
theorem rows2objStepCombined_eq (idColName : String) (o : Obj (List Record)) (r : Record) :
    rows2objStepCombined idColName o r
      = if Obj.get? o (groupKey idColName r) = none
            ∧ groupKey idColName r ∈ objectPrototypeNames then .error pushError
        else .ok (Obj.set o (groupKey idColName r)
          ((Obj.get? o (groupKey idColName r)).getD [] ++ [r])) := by
  unfold rows2objStepCombined
  have hk : (r.get idColName).toKey = groupKey idColName r := rfl
  simp only [hk]
  cases h : Obj.get? o (groupKey idColName r) with
  | some entries => simp [h]
  | none =>
    by_cases hp : groupKey idColName r ∈ objectPrototypeNames
    · simp [h, hp]
    · simp [h, hp, Obj.get?_set, Obj.set_set]

/-- The combining loop on rows none of which is filed under a member of `Object.prototype`:
it returns, and every array is the array it started as followed by the rows filed under its
name. -/
theorem rows2objCombined_ok (idColName : String) :
    ∀ (rows : List Record) (acc : Obj (List Record)),
      (∀ r, r ∈ rows → groupKey idColName r ∉ objectPrototypeNames) →
      ∃ o, rows2objCombined idColName rows acc = .ok o
        ∧ (∀ k, Obj.get? o k = if k ∈ rows.map (groupKey idColName)
            then some ((Obj.get? acc k).getD [] ++ rowsWithKey idColName rows k)
            else Obj.get? acc k)
        ∧ (acc.Ordered → o.Ordered)
        ∧ (∀ k, k ∈ o.keys ↔ k ∈ acc.keys ∨ k ∈ rows.map (groupKey idColName)) := by
  intro rows
  induction rows with
  | nil =>
    intro acc _
    exact ⟨acc, rfl, by simp, fun h => h, by simp⟩
  | cons r rest ih =>
    intro acc hsafe
    have hr : groupKey idColName r ∉ objectPrototypeNames := hsafe r (List.mem_cons_self _ _)
    have hstep : rows2objStepCombined idColName acc r
        = .ok (Obj.set acc (groupKey idColName r)
            ((Obj.get? acc (groupKey idColName r)).getD [] ++ [r])) := by
      rw [rows2objStepCombined_eq]
      simp [hr]
    obtain ⟨o, ho, hget, hord, hkeys⟩ := ih
      (Obj.set acc (groupKey idColName r)
        ((Obj.get? acc (groupKey idColName r)).getD [] ++ [r]))
      (fun x hx => hsafe x (List.mem_cons_of_mem _ hx))
    refine ⟨o, ?_, ?_, fun h => hord (Obj.ordered_set _ _ _ h), ?_⟩
    · simp only [rows2objCombined, hstep]
      exact ho
    · intro k
      rw [hget k, Obj.get?_set, rowsWithKey_cons, List.map_cons]
      by_cases e : groupKey idColName r = k
      · subst e
        by_cases m : groupKey idColName r ∈ rest.map (groupKey idColName)
        · simp [m]
        · simp [m, rowsWithKey_eq_nil idColName rest _ m]
      · have e1 : ¬ k = groupKey idColName r := fun x => e x.symm
        by_cases m : k ∈ rest.map (groupKey idColName)
        · simp [e, e1, m]
        · simp [e, e1, m]
    · intro k
      rw [hkeys k, Obj.mem_keys_set, List.map_cons, List.mem_cons]
      tauto

/-- The combining loop on rows one of which is filed under a member of `Object.prototype`: it
throws. -/
theorem rows2objCombined_throws (idColName : String) :
    ∀ (rows : List Record) (acc : Obj (List Record)),
      (∀ k, k ∈ objectPrototypeNames → Obj.get? acc k = none) →
      (∃ r, r ∈ rows ∧ groupKey idColName r ∈ objectPrototypeNames) →
      rows2objCombined idColName rows acc = .error pushError := by
  intro rows
  induction rows with
  | nil =>
    intro acc _ h
    obtain ⟨r, hr, _⟩ := h
    exact absurd hr (List.not_mem_nil _)
  | cons r rest ih =>
    intro acc hacc h
    by_cases hp : groupKey idColName r ∈ objectPrototypeNames
    · have hstep : rows2objStepCombined idColName acc r = .error pushError := by
        rw [rows2objStepCombined_eq]
        simp [hp, hacc _ hp]
      simp only [rows2objCombined, hstep]
    · have hstep : rows2objStepCombined idColName acc r
          = .ok (Obj.set acc (groupKey idColName r)
              ((Obj.get? acc (groupKey idColName r)).getD [] ++ [r])) := by
        rw [rows2objStepCombined_eq]
        simp [hp]
      simp only [rows2objCombined, hstep]
      apply ih
      · intro k hk
        have hne : ¬ groupKey idColName r = k := fun e => hp (e ▸ hk)
        rw [Obj.get?_set, if_neg hne]
        exact hacc k hk
      · obtain ⟨x, hx, hxp⟩ := h
        rcases List.mem_cons.mp hx with e | e
        · exact absurd (e ▸ hxp) hp
        · exact ⟨x, e, hxp⟩

/-- C10 (as stated, refuted): a row without the key field and a row whose key field is the
string `undefined` have distinct key values, yet both are in the one array of the property
`undefined`: the array for the key value `"undefined"` is not exactly the rows with that key
value. -/
theorem rows2obj_combined_merges_distinct_values :
    rows2obj [[("v", .str "1")], [("id", .str "undefined"), ("v", .str "2")]] "id" true
        = .ok (.combined [("undefined",
            [[("v", .str "1")], [("id", .str "undefined"), ("v", .str "2")]])])
      ∧ Record.get [("v", .str "1")] "id" = .undefined
      ∧ Record.get [("id", .str "undefined"), ("v", .str "2")] "id" = .str "undefined"
      ∧ Value.undefined ≠ Value.str "undefined" :=
  ⟨rfl, rfl, rfl, by decide⟩

/-- C10 (amended): when no row is filed under the name of a member of `Object.prototype`,
`rows2obj(rows, idColName, true)` gives an object whose own property names are pairwise
distinct, in visiting order, and are exactly the string forms of the key field that occur; the
property for the string form `k` holds exactly the input rows whose key field has the string
form `k`, in input order. Concatenating the arrays in key-first-seen order gives a permutation
of the input which, restricted to any one key, is the input restricted to that key, so rows
sharing a key keep their relative order. -/
theorem rows2obj_combined_stable_partition (rows : List Record) (idColName : String)
    (hsafe : ∀ r, r ∈ rows → groupKey idColName r ∉ objectPrototypeNames) :
    ∃ o, rows2obj rows idColName true = .ok (.combined o)
      ∧ o.keys.Nodup
      ∧ o.Ordered
      ∧ (∀ k, k ∈ o.keys ↔ k ∈ rows.map (groupKey idColName))
      ∧ (∀ k, Obj.get? o k = if k ∈ rows.map (groupKey idColName)
          then some (rows.filter (fun r => groupKey idColName r = k)) else none)
      ∧ List.Perm ((firstSeen (rows.map (groupKey idColName))).flatMap
          (fun k => (Obj.get? o k).getD [])) rows
      ∧ (∀ k, ((firstSeen (rows.map (groupKey idColName))).flatMap
            (fun k => (Obj.get? o k).getD [])).filter (fun r => groupKey idColName r = k)
          = rows.filter (fun r => groupKey idColName r = k)) := by
  obtain ⟨o, ho, hget, hord, hkeys⟩ := rows2objCombined_ok idColName rows [] hsafe
  have hord1 : o.Ordered := hord (by simp [Obj.Ordered, Obj.keys])
  have hget1 : ∀ k, Obj.get? o k = if k ∈ rows.map (groupKey idColName)
      then some (rows.filter (fun r => groupKey idColName r = k)) else none := by
    intro k
    rw [hget k]
    simp [Obj.get?, rowsWithKey]
  have hflat : (firstSeen (rows.map (groupKey idColName))).flatMap
        (fun k => (Obj.get? o k).getD [])
      = (firstSeen (rows.map (groupKey idColName))).flatMap
        (fun k => rowsWithKey idColName rows k) := by
    simp only [List.flatMap]
    congr 1
    apply List.map_congr_left
    intro k hk
    rw [hget1 k, if_pos ((mem_firstSeen _ _).mp hk)]
    rfl
  refine ⟨o, by simp [rows2obj, ho], hord1.nodup, hord1, ?_, hget1, ?_, ?_⟩
  · intro k
    rw [hkeys k]
    simp [Obj.keys]
  · rw [hflat]
    exact flatMap_rowsWithKey_perm idColName _ (nodup_firstSeen _) rows
      (fun r hr => (mem_firstSeen _ _).mpr (List.mem_map.mpr ⟨r, hr, rfl⟩))
  · intro k
    rw [hflat, filter_flatMap_rowsWithKey _ _ _ _ (nodup_firstSeen _)]
    by_cases hk : k ∈ rows.map (groupKey idColName)
    · rw [if_pos ((mem_firstSeen _ _).mpr hk)]
      rfl
    · rw [if_neg (fun x => hk ((mem_firstSeen _ _).mp x))]
      exact (rowsWithKey_eq_nil idColName rows k hk).symm

theorem rows2obj_combined_stable_partition_witness :
    ∃ o, rows2obj [[("id", .str "b"), ("v", .str "1")], [("id", .str "7"), ("v", .str "2")],
          [("v", .str "3"), ("id", .str "b")], [("v", .str "4")]] "id" true
        = .ok (.combined o)
      ∧ o.keys = ["7", "b", "undefined"]
      ∧ Obj.get? o "b"
        = some [[("id", .str "b"), ("v", .str "1")], [("v", .str "3"), ("id", .str "b")]]
      ∧ Obj.get? o "7" = some [[("id", .str "7"), ("v", .str "2")]]
      ∧ Obj.get? o "undefined" = some [[("v", .str "4")]]
      ∧ Obj.get? o "v" = none := by
  obtain ⟨o, h1, _, _, _, hget, _⟩ :=
    rows2obj_combined_stable_partition
      [[("id", .str "b"), ("v", .str "1")], [("id", .str "7"), ("v", .str "2")],
        [("v", .str "3"), ("id", .str "b")], [("v", .str "4")]] "id" (by decide)
  refine ⟨o, h1, ?_, by rw [hget]; decide, by rw [hget]; decide, by rw [hget]; decide,
    by rw [hget]; decide⟩
  have h2 : rows2obj [[("id", .str "b"), ("v", .str "1")], [("id", .str "7"), ("v", .str "2")],
        [("v", .str "3"), ("id", .str "b")], [("v", .str "4")]] "id" true
      = .ok (.combined [("7", [[("id", .str "7"), ("v", .str "2")]]),
          ("b", [[("id", .str "b"), ("v", .str "1")], [("v", .str "3"), ("id", .str "b")]]),
          ("undefined", [[("v", .str "4")]])]) := rfl
  rw [h2] at h1
  injection h1 with h1
  injection h1 with h3
  rw [← h3]
  rfl

/-! ## `tabulateArray` -/

theorem collectHeader_inner (obj : Record) :
    ∀ (ks : List String),
      obj.foldl (fun headerRow kv =>
          if headerRow.indexOf kv.1 == headerRow.length then headerRow ++ [kv.1] else headerRow)
          (firstSeen ks)
        = firstSeen (ks ++ obj.keys) := by
  induction obj with
  | nil => intro ks; simp [Obj.keys]
  | cons kv rest ih =>
    intro ks
    have hstep : (if (firstSeen ks).indexOf kv.1 == (firstSeen ks).length
          then firstSeen ks ++ [kv.1] else firstSeen ks)
        = firstSeen (ks ++ [kv.1]) := by
      rw [firstSeen_append_singleton]
      by_cases h : kv.1 ∈ ks
      · have h1 : ¬ (firstSeen ks).indexOf kv.1 = (firstSeen ks).length := by
          rw [List.indexOf_eq_length]
          exact fun x => x ((mem_firstSeen _ _).mpr h)
        simp [h, h1]
      · have h1 : (firstSeen ks).indexOf kv.1 = (firstSeen ks).length := by
          rw [List.indexOf_eq_length]
          exact fun x => h ((mem_firstSeen _ _).mp x)
        simp [h, h1]
    rw [List.foldl_cons, hstep, ih]
    simp [Obj.keys]

/-- The header row built from the objects: their property names, each once, in first-seen
order. -/
theorem collectHeader_eq_firstSeen (array : List Record) :
    collectHeader array = firstSeen (array.flatMap Obj.keys) := by
  have h : ∀ (array : List Record) (ks : List String),
      array.foldl (fun headerRow obj =>
          obj.foldl (fun headerRow kv =>
            if headerRow.indexOf kv.1 == headerRow.length then headerRow ++ [kv.1]
            else headerRow) headerRow) (firstSeen ks)
        = firstSeen (ks ++ array.flatMap Obj.keys) := by
    intro array
    induction array with
    | nil => intro ks; simp
    | cons obj rest ih =>
      intro ks
      rw [List.foldl_cons, collectHeader_inner, ih]
      simp
  simpa [collectHeader, firstSeen] using h array []

/-- What `tabulateArray` writes for a field, told by what the object has: a value the object
has is taken, unless it is `undefined`; a name the object lacks gives the empty string, unless
it names a member of `Object.prototype`, which is then what the read finds. -/
theorem tabulate_cell_cases (r : Record) (h : String) :
    (∀ v, Obj.get? r h = some v → v ≠ .undefined →
        (if r.get h = .undefined then Value.str "" else r.get h) = v)
      ∧ (Obj.get? r h = some .undefined →
        (if r.get h = .undefined then Value.str "" else r.get h) = .str "")
      ∧ (Obj.get? r h = none → h ∉ objectPrototypeNames →
        (if r.get h = .undefined then Value.str "" else r.get h) = .str "")
      ∧ (Obj.get? r h = none → h ∈ objectPrototypeNames →
        (if r.get h = .undefined then Value.str "" else r.get h) = .inherited h) := by
  refine ⟨?_, ?_, ?_, ?_⟩
  · intro v hv hne
    rw [get_of_own r h v hv, if_neg hne]
  · intro hv
    rw [get_of_own r h _ hv, if_pos rfl]
  · intro hv hp
    rw [get_of_lacking r h hv hp, if_pos rfl]
  · intro hv hp
    rw [get_of_inherited r h hv hp]
    simp

/-- C11 (as stated, refuted): the object `{a: undefined, b: ""}` has the key `a`, and its value
for `a` is `undefined`, yet the cell written for `a` is the empty string. -/
theorem tabulateArray_rewrites_undefined_value :
    tabulateArray [[("a", .undefined), ("b", .str "")]] none
        = [[.str "a", .str "b"], [.str "", .str ""]]
      ∧ "a" ∈ Obj.keys ([("a", .undefined), ("b", .str "")] : Record)
      ∧ valueOrEmpty [("a", .undefined), ("b", .str "")] "a" = .undefined
      ∧ Value.undefined ≠ Value.str "" := by
  decide

/-- C11 (amended): `tabulateArray` called without a header gives a grid whose row 0 is the
property names of all objects, each once, in first-seen order, followed by one row per object in
input order, every row as long as the header. Cell `j` of the row of an object is, for the name
at place `j` of the header: the value the object has there unless that value is `undefined`;
the empty string when the object holds `undefined` there; and the empty string when the object
lacks the name and the name is not that of a member of `Object.prototype`. -/
theorem tabulateArray_header_then_rows (R : List Record) :
    collectHeader R = firstSeen (R.flatMap Obj.keys)
      ∧ (collectHeader R).Nodup
      ∧ (∀ k, k ∈ collectHeader R ↔ ∃ r, r ∈ R ∧ k ∈ r.keys)
      ∧ (tabulateArray R none)[0]? = some ((collectHeader R).map Value.str)
      ∧ (tabulateArray R none).length = R.length + 1
      ∧ (∀ row, row ∈ tabulateArray R none → row.length = (collectHeader R).length)
      ∧ (∀ (i j : Nat) (r : Record) (h : String), R[i]? = some r →
          (collectHeader R)[j]? = some h →
          ∃ cell, ((tabulateArray R none)[i + 1]?.bind (fun row => row[j]?)) = some cell
            ∧ (∀ v, Obj.get? r h = some v → v ≠ .undefined → cell = v)
            ∧ (Obj.get? r h = some .undefined → cell = .str "")
            ∧ (Obj.get? r h = none → h ∉ objectPrototypeNames → cell = .str "")) := by
  have hgrid : tabulateArray R none
      = (collectHeader R).map Value.str
        :: R.map (fun r => (collectHeader R).map
            (fun h => if r.get h = .undefined then .str "" else r.get h)) := rfl
  refine ⟨collectHeader_eq_firstSeen R, ?_, ?_, by rw [hgrid]; simp, ?_, ?_, ?_⟩
  · rw [collectHeader_eq_firstSeen]
    exact nodup_firstSeen _
  · intro k
    rw [collectHeader_eq_firstSeen, mem_firstSeen, List.mem_flatMap]
  · rw [hgrid]
    simp
  · intro row hrow
    rw [hgrid] at hrow
    rcases List.mem_cons.mp hrow with e | e
    · rw [e, List.length_map]
    · obtain ⟨r, _, hr⟩ := List.mem_map.mp e
      rw [← hr, List.length_map]
  · intro i j r h hi hj
    refine ⟨if r.get h = .undefined then .str "" else r.get h, ?_,
      (tabulate_cell_cases r h).1, (tabulate_cell_cases r h).2.1,
      (tabulate_cell_cases r h).2.2.1⟩
    rw [hgrid, List.getElem?_cons_succ, List.getElem?_map, hi]
    simp [List.getElem?_map, hj]

theorem tabulateArray_header_then_rows_witness :
    collectHeader [[("b", .str "x"), ("u", .undefined)], [("7", .str "t"), ("b", .str "")]]
        = ["b", "u", "7"]
      ∧ (∃ cell, ((tabulateArray [[("b", .str "x"), ("u", .undefined)],
            [("7", .str "t"), ("b", .str "")]] none)[0 + 1]?.bind (fun row => row[0]?))
          = some cell ∧ cell = .str "x")
      ∧ (∃ cell, ((tabulateArray [[("b", .str "x"), ("u", .undefined)],
            [("7", .str "t"), ("b", .str "")]] none)[0 + 1]?.bind (fun row => row[1]?))
          = some cell ∧ cell = .str "")
      ∧ (∃ cell, ((tabulateArray [[("b", .str "x"), ("u", .undefined)],
            [("7", .str "t"), ("b", .str "")]] none)[0 + 1]?.bind (fun row => row[2]?))
          = some cell ∧ cell = .str "")
      ∧ (∃ cell, ((tabulateArray [[("b", .str "x"), ("u", .undefined)],
            [("7", .str "t"), ("b", .str "")]] none)[1 + 1]?.bind (fun row => row[2]?))
          = some cell ∧ cell = .str "t") := by
  have h := tabulateArray_header_then_rows
    [[("b", .str "x"), ("u", .undefined)], [("7", .str "t"), ("b", .str "")]]
  obtain ⟨h1, _, _, _, _, _, hcell⟩ := h
  refine ⟨h1.trans (by decide), ?_, ?_, ?_, ?_⟩
  · obtain ⟨cell, hc, hown, _, _⟩ := hcell 0 0 _ "b" rfl (by rw [h1]; decide)
    exact ⟨cell, hc, hown (.str "x") (by decide) (by decide)⟩
  · obtain ⟨cell, hc, _, hundef, _⟩ := hcell 0 1 _ "u" rfl (by rw [h1]; decide)
    exact ⟨cell, hc, hundef (by decide)⟩
  · obtain ⟨cell, hc, _, _, hlack⟩ := hcell 0 2 _ "7" rfl (by rw [h1]; decide)
    exact ⟨cell, hc, hlack (by decide) (by decide)⟩
  · obtain ⟨cell, hc, hown, _, _⟩ := hcell 1 2 _ "7" rfl (by rw [h1]; decide)
    exact ⟨cell, hc, hown (.str "t") (by decide) (by decide)⟩

/-! ## `makeNewSheet` -/

/-- C12 (the code at a failing input): a name of 100 characters is used unchanged, and a name
of 101 characters is cut by `slice(0, 99)` to its first 99 characters, one short of the
100-character cap, so it is not the first 100 characters of the name. -/
theorem sheetName_cuts_long_name_to_99 :
    sheetName (String.mk (List.replicate 100 'a')) = String.mk (List.replicate 100 'a')
      ∧ (String.mk (List.replicate 101 'a')).length = 101
      ∧ sheetName (String.mk (List.replicate 101 'a')) = String.mk (List.replicate 99 'a')
      ∧ (sheetName (String.mk (List.replicate 101 'a'))).length = 99
      ∧ sheetName (String.mk (List.replicate 101 'a'))
        ≠ String.mk ((List.replicate 101 'a').take 100) := by
  decide

/-! ## `mapRows` on any grid -/

theorem foldl_skip {σ β : Type} (p : β → Bool) (f : σ → β → σ) :
    ∀ (xs : List β) (init : σ),
      xs.foldl (fun s x => if p x then s else f s x) init
        = (xs.filter (fun x => !p x)).foldl f init := by
  intro xs
  induction xs with
  | nil => intro init; rfl
  | cons x rest ih =>
    intro init
    by_cases h : p x = true
    · simp [List.filter_cons, h, ih]
    · simp [List.filter_cons, h, ih]

/-- The loop of `mapRows` over one row sets, in column order, every header name other than
`__proto__`. -/
theorem mapRow_eq_fold (props row : List Value) :
    mapRow props row
      = (props.enum.filter (fun jp => !decide (jp.2.toKey = "__proto__"))).foldl
          (fun o jp => Obj.set o jp.2.toKey (cellAt row jp.1)) [] := by
  unfold mapRow assignCell
  have h := foldl_skip (fun jp : Nat × Value => decide (jp.2.toKey = "__proto__"))
    (fun (o : Record) jp => Obj.set o jp.2.toKey (cellAt row jp.1)) props.enum []
  simpa using h

theorem enum_map_toKey (props : List Value) :
    props.enum.map (fun jp : Nat × Value => jp.2.toKey) = props.map Value.toKey := by
  rw [← List.enum_map_snd props, List.map_map, List.enum_map_snd]
  rfl

theorem mapRow_ordered (props row : List Value) : (mapRow props row).Ordered := by
  rw [mapRow_eq_fold]
  exact Obj.foldl_set_ordered _ _ _

theorem mapRow_mem_keys (props row : List Value) (k : String) :
    k ∈ (mapRow props row).keys ↔ k ≠ "__proto__" ∧ k ∈ props.map Value.toKey := by
  rw [mapRow_eq_fold, Obj.foldl_set_mem_keys, ← enum_map_toKey]
  simp only [List.mem_map, List.mem_filter, Bool.not_eq_true', decide_eq_false_iff_not]
  constructor
  · rintro ⟨jp, ⟨hjp, hne⟩, rfl⟩
    exact ⟨hne, jp, hjp, rfl⟩
  · rintro ⟨hne, jp, hjp, rfl⟩
    exact ⟨jp, ⟨hjp, hne⟩, rfl⟩

theorem mapRow_get? (props row : List Value) (k : String) (hk : k ≠ "__proto__") :
    Obj.get? (mapRow props row) k
      = ((props.enum.filter (fun jp => jp.2.toKey = k)).getLast?).map
          (fun jp => cellAt row jp.1) := by
  rw [mapRow_eq_fold, Obj.foldl_set_get?, List.filter_filter]
  congr 2
  apply List.filter_congr
  intro jp _
  by_cases e : jp.2.toKey = k
  · simp [e, hk]
  · simp [e]

theorem mapRow_get?_proto (props row : List Value) :
    Obj.get? (mapRow props row) "__proto__" = none := by
  rw [Obj.get?_eq_none_iff, mapRow_mem_keys]
  exact fun h => h.1 rfl

theorem mapRow_plain (props row : List Value) (hnd : (props.map Value.toKey).Nodup)
    (hplain : ∀ p, p ∈ props → arrayIndex? p.toKey = none ∧ p.toKey ≠ "__proto__") :
    mapRow props row = props.enum.map (fun jp => (jp.2.toKey, cellAt row jp.1)) := by
  have hmem : ∀ jp, jp ∈ props.enum → jp.2 ∈ props := by
    intro jp hjp
    exact List.getElem?_mem (List.mem_enum_iff_getElem?.mp hjp)
  have hall : props.enum.filter (fun jp => !decide (jp.2.toKey = "__proto__")) = props.enum := by
    rw [List.filter_eq_self]
    intro jp hjp
    simp [(hplain jp.2 (hmem jp hjp)).2]
  rw [mapRow_eq_fold, hall]
  apply Obj.foldl_set_of_plain
  · rw [enum_map_toKey]
    exact hnd
  · intro jp hjp
    exact (hplain jp.2 (hmem jp hjp)).1

theorem cellAt_of_getElem? (row : List Value) (j : Nat) (c : Value) (h : row[j]? = some c) :
    cellAt row j = c := by
  rw [cellAt, List.getD_eq_getElem?_getD, h]
  rfl

/-- C13 (as stated, refuted): the row `["1"]` under the header `["a", "b"]` gives an object whose
field `b` is `undefined`, not the empty string. -/
theorem mapRows_short_row_has_undefined_field :
    mapRows [[.str "a", .str "b"], [.str "1"]] = [[("a", .str "1"), ("b", .undefined)]]
      ∧ Record.get [("a", .str "1"), ("b", .undefined)] "b" ≠ .str "" := by
  decide

/-- C13 (amended): for a grid whose header row `props` does not hold the name `__proto__`,
`mapRows` gives exactly one object per remaining row, in row order. Its fields are the header
names, each once, in visiting order; a name holds the cell of the last column it heads, which
for pairwise distinct names is the cell in the same column, and the fields come in header order
when, besides, no header name is an array index. A cell that is there is taken as it is (an
empty cell stays the empty string) and a cell that is missing, the row being shorter than the
header, reads `undefined`; so no field is `undefined` when the row is at least as long as the
header and holds no `undefined` cell. -/
theorem mapRows_fields_from_columns (props : List Value) (rest : Grid)
    (hproto : "__proto__" ∉ props.map Value.toKey) :
    (mapRows (props :: rest)).length = rest.length
      ∧ (∀ i : Nat, (mapRows (props :: rest))[i]? = rest[i]?.map (mapRow props))
      ∧ (∀ row, (mapRow props row).keys.Nodup ∧ (mapRow props row).Ordered)
      ∧ (∀ row k, k ∈ (mapRow props row).keys ↔ k ∈ props.map Value.toKey)
      ∧ (∀ row k, Obj.get? (mapRow props row) k
          = ((props.enum.filter (fun jp => jp.2.toKey = k)).getLast?).map
              (fun jp => cellAt row jp.1))
      ∧ (∀ row, (props.map Value.toKey).Nodup →
          (∀ p, p ∈ props → arrayIndex? p.toKey = none) →
          mapRow props row = props.enum.map (fun jp => (jp.2.toKey, cellAt row jp.1)))
      ∧ (∀ row (j : Nat) (c : Value), row[j]? = some c → cellAt row j = c)
      ∧ (∀ row (j : Nat), row.length ≤ j → cellAt row j = .undefined)
      ∧ (∀ row, props.length ≤ row.length → (∀ c, c ∈ row → c ≠ .undefined) →
          ∀ k v, Obj.get? (mapRow props row) k = some v → v ≠ .undefined) := by
  have hne : ∀ p, p ∈ props → p.toKey ≠ "__proto__" := by
    intro p hp e
    exact hproto (List.mem_map.mpr ⟨p, hp, e⟩)
  have hget : ∀ row k, Obj.get? (mapRow props row) k
      = ((props.enum.filter (fun jp => jp.2.toKey = k)).getLast?).map
          (fun jp => cellAt row jp.1) := by
    intro row k
    by_cases hk : k = "__proto__"
    · subst hk
      have hnil : props.enum.filter (fun jp => jp.2.toKey = "__proto__") = [] := by
        rw [List.filter_eq_nil_iff]
        intro jp hjp hkey
        exact hne jp.2 (List.getElem?_mem (List.mem_enum_iff_getElem?.mp hjp))
          (by simpa using hkey)
      rw [mapRow_get?_proto, hnil]
      rfl
    · exact mapRow_get? props row k hk
  refine ⟨by simp [mapRows], ?_, fun row => ⟨(mapRow_ordered props row).nodup,
    mapRow_ordered props row⟩, ?_, hget, ?_, cellAt_of_getElem?, ?_, ?_⟩
  · intro i
    simp [mapRows, List.getElem?_map]
  · intro row k
    rw [mapRow_mem_keys]
    exact ⟨fun h => h.2, fun h => ⟨fun e => hproto (e ▸ h), h⟩⟩
  · intro row hnd hplain
    exact mapRow_plain props row hnd (fun p hp => ⟨hplain p hp, hne p hp⟩)
  · intro row j hj
    exact List.getD_eq_default _ _ hj
  · intro row hlen hcells k v hv
    rw [hget] at hv
    obtain ⟨jp, hjp, rfl⟩ := Option.map_eq_some'.mp hv
    have hmem : jp ∈ props.enum :=
      (List.mem_filter.mp (List.mem_of_getLast?_eq_some hjp)).1
    have hlt : jp.1 < row.length := Nat.lt_of_lt_of_le (List.fst_lt_of_mem_enum hmem) hlen
    have hc : row[jp.1]? = some row[jp.1] := List.getElem?_eq_getElem hlt
    rw [cellAt_of_getElem? row jp.1 _ hc]
    exact hcells _ (List.getElem_mem hlt)

theorem mapRows_fields_from_columns_witness :
    (mapRows ([.str "a", .str "b"] :: [[.str "1", .str ""], [.str "2"]])).length = 2
      ∧ mapRow [.str "a", .str "b"] [.str "1", .str ""] = [("a", .str "1"), ("b", .str "")]
      ∧ mapRow [.str "a", .str "b"] [.str "2"] = [("a", .str "2"), ("b", .undefined)]
      ∧ Obj.get? (mapRow [.str "Name", .str "2020", .str "Name"] [.str "n", .str "y", .str "m"])
          "Name" = some (.str "m")
      ∧ (mapRow [.str "Name", .str "2020", .str "Name"] [.str "n", .str "y", .str "m"]).Ordered
      ∧ (∀ k v, Obj.get? (mapRow [.str "a", .str "b"] [.str "1", .str ""]) k = some v →
          v ≠ .undefined) :=
  ⟨(mapRows_fields_from_columns [.str "a", .str "b"] [[.str "1", .str ""], [.str "2"]]
      (by decide)).1,
    (mapRows_fields_from_columns [.str "a", .str "b"] [] (by decide)).2.2.2.2.2.1
      [.str "1", .str ""] (by decide) (by decide),
    (mapRows_fields_from_columns [.str "a", .str "b"] [] (by decide)).2.2.2.2.2.1
      [.str "2"] (by decide) (by decide),
    ((mapRows_fields_from_columns [.str "Name", .str "2020", .str "Name"] []
      (by decide)).2.2.2.2.1 [.str "n", .str "y", .str "m"] "Name").trans (by decide),
    ((mapRows_fields_from_columns [.str "Name", .str "2020", .str "Name"] []
      (by decide)).2.2.1 [.str "n", .str "y", .str "m"]).2,
    (mapRows_fields_from_columns [.str "a", .str "b"] [] (by decide)).2.2.2.2.2.2.2.2
      [.str "1", .str ""] (by decide) (by decide)⟩

/-! ## `tabulateArray` then `mapRows` -/

/-- Reading a row built for a header back through that header: a name of the header other than
`__proto__` holds the cell built for it. -/
theorem mapRow_tabulated_get? (H : List String) (f : String → Value) (k : String)
    (hk : k ∈ H) (hne : k ≠ "__proto__") :
    Obj.get? (mapRow (H.map Value.str) (H.map f)) k = some (f k) := by
  rw [mapRow_get? _ _ _ hne]
  have hpair : ∀ jp, jp ∈ (H.map Value.str).enum → jp.2.toKey = k →
      cellAt (H.map f) jp.1 = f k := by
    intro jp hjp hkey
    have h1 := List.mem_enum_iff_getElem?.mp hjp
    rw [List.getElem?_map] at h1
    obtain ⟨h0, hh0, hstr⟩ := Option.map_eq_some'.mp h1
    have hk0 : h0 = k := by
      rw [← hstr] at hkey
      exact hkey
    apply cellAt_of_getElem?
    rw [List.getElem?_map, hh0, hk0]
    rfl
  obtain ⟨n, hn⟩ := List.mem_iff_getElem?.mp hk
  have hin : (n, Value.str k) ∈ (H.map Value.str).enum.filter (fun jp => jp.2.toKey = k) := by
    rw [List.mem_filter]
    refine ⟨List.mk_mem_enum_iff_getElem?.mpr ?_, by simp [Value.toKey]⟩
    rw [List.getElem?_map, hn]
    rfl
  cases hlast : ((H.map Value.str).enum.filter (fun jp => jp.2.toKey = k)).getLast? with
  | none =>
    rw [List.getLast?_eq_none_iff] at hlast
    rw [hlast] at hin
    exact absurd hin (List.not_mem_nil _)
  | some jp =>
    have hjp := List.mem_filter.mp (List.mem_of_getLast?_eq_some hlast)
    have hkey : jp.2.toKey = k := by simpa using hjp.2
    simp [hpair jp hjp.1 hkey]

/-- C8 (as stated, refuted): the object `{a: "1", b: undefined}`, which `mapRows` itself returns
for a short row, has both keys of the header and lacks none, yet it comes back with `b` holding
the empty string. -/
theorem mapRows_tabulateArray_changes_undefined_field :
    mapRows (tabulateArray [[("a", .str "1"), ("b", .undefined)]] none)
        = [[("a", .str "1"), ("b", .str "")]]
      ∧ collectHeader [[("a", .str "1"), ("b", .undefined)]] = ["a", "b"]
      ∧ Obj.keys ([("a", .str "1"), ("b", .undefined)] : Record) = ["a", "b"]
      ∧ valueOrEmpty [("a", .str "1"), ("b", .undefined)] "b" = .undefined
      ∧ Obj.get? ([("a", .str "1"), ("b", .str "")] : Record) "b" ≠ some .undefined := by
  decide

/-- C8 (amended): when no object of `R` has a property named `__proto__`,
`mapRows(tabulateArray(R))` has one object per object of `R`, in the same order. The fields of
the object at place `i` are, each once and in visiting order, the names of the header, which is
the union of the property names of `R`. A field holds the value `R[i]` has there unless that
value is `undefined`, and the empty string when `R[i]` holds `undefined` there; a field `R[i]`
lacks holds the empty string when its name is not that of a member of `Object.prototype`. The
fields come in header order when no name of the header is an array index. -/
theorem mapRows_tabulateArray_extends (R : List Record)
    (hproto : "__proto__" ∉ collectHeader R) :
    (mapRows (tabulateArray R none)).length = R.length
      ∧ (collectHeader R).Nodup
      ∧ (∀ k, k ∈ collectHeader R ↔ ∃ r, r ∈ R ∧ k ∈ r.keys)
      ∧ (∀ (i : Nat) (r : Record), R[i]? = some r →
          ∃ out, (mapRows (tabulateArray R none))[i]? = some out
            ∧ out.keys.Nodup
            ∧ out.Ordered
            ∧ (∀ k, k ∈ out.keys ↔ k ∈ collectHeader R)
            ∧ (∀ k v, Obj.get? r k = some v → v ≠ .undefined → Obj.get? out k = some v)
            ∧ (∀ k, Obj.get? r k = some .undefined → Obj.get? out k = some (.str ""))
            ∧ (∀ k, k ∈ collectHeader R → Obj.get? r k = none → k ∉ objectPrototypeNames →
                Obj.get? out k = some (.str ""))
            ∧ ((∀ k, k ∈ collectHeader R → arrayIndex? k = none) →
                out.keys = collectHeader R)) := by
  have hnd : (collectHeader R).Nodup := by
    rw [collectHeader_eq_firstSeen]
    exact nodup_firstSeen _
  have hmem : ∀ k, k ∈ collectHeader R ↔ ∃ r, r ∈ R ∧ k ∈ r.keys := by
    intro k
    rw [collectHeader_eq_firstSeen, mem_firstSeen, List.mem_flatMap]
  have hmain : mapRows (tabulateArray R none)
      = R.map (fun r => mapRow ((collectHeader R).map Value.str)
          ((collectHeader R).map (fun h => if r.get h = .undefined then .str "" else r.get h))) := by
    simp only [tabulateArray, mapRows, List.singleton_append, List.map_map]
    rfl
  refine ⟨by rw [hmain, List.length_map], hnd, hmem, ?_⟩
  intro i r hi
  have hr : r ∈ R := List.getElem?_mem hi
  have hhas : ∀ k, Obj.get? r k ≠ none → k ∈ collectHeader R := by
    intro k hk
    refine (hmem k).mpr ⟨r, hr, ?_⟩
    by_contra hnot
    exact hk ((Obj.get?_eq_none_iff r k).mpr hnot)
  have hget : ∀ k, k ∈ collectHeader R →
      Obj.get? (mapRow ((collectHeader R).map Value.str)
        ((collectHeader R).map (fun h => if r.get h = .undefined then .str "" else r.get h))) k
        = some (if r.get k = .undefined then .str "" else r.get k) :=
    fun k hk => mapRow_tabulated_get? (collectHeader R) _ k hk (fun e => hproto (e ▸ hk))
  have hkeysmap : ((collectHeader R).map Value.str).map Value.toKey = collectHeader R := by
    rw [List.map_map]
    exact List.map_id _
  refine ⟨_, by rw [hmain, List.getElem?_map, hi]; rfl, (mapRow_ordered _ _).nodup,
    mapRow_ordered _ _, ?_, ?_, ?_, ?_, ?_⟩
  · intro k
    rw [mapRow_mem_keys, hkeysmap]
    exact ⟨fun h => h.2, fun h => ⟨fun e => hproto (e ▸ h), h⟩⟩
  · intro k v hv hvne
    rw [hget k (hhas k (by rw [hv]; exact Option.some_ne_none v)),
      (tabulate_cell_cases r k).1 v hv hvne]
  · intro k hv
    rw [hget k (hhas k (by rw [hv]; exact Option.some_ne_none _)),
      (tabulate_cell_cases r k).2.1 hv]
  · intro k hk hnone hp
    rw [hget k hk, (tabulate_cell_cases r k).2.2.1 hnone hp]
  · intro hplain
    rw [mapRow_plain _ _ (by rw [hkeysmap]; exact hnd) (by
      intro p hp
      obtain ⟨k, hk, rfl⟩ := List.mem_map.mp hp
      exact ⟨hplain k hk, fun e => hproto (by
        have e1 : k = "__proto__" := e
        exact e1 ▸ hk)⟩)]
    show List.map Prod.fst (List.map _ _) = _
    rw [List.map_map]
    have h2 := enum_map_toKey ((collectHeader R).map Value.str)
    rw [hkeysmap] at h2
    exact h2

theorem mapRows_tabulateArray_extends_witness :
    ∃ out, (mapRows (tabulateArray [[("b", .str "x"), ("u", .undefined)],
          [("7", .str "y"), ("c", .str "t")]] none))[0]? = some out
      ∧ out.keys = ["7", "b", "u", "c"]
      ∧ Obj.get? out "b" = some (.str "x")
      ∧ Obj.get? out "u" = some (.str "")
      ∧ Obj.get? out "7" = some (.str "")
      ∧ Obj.get? out "c" = some (.str "") := by
  obtain ⟨out, h1, _, _, _, hown, hundef, hlack, _⟩ :=
    (mapRows_tabulateArray_extends [[("b", .str "x"), ("u", .undefined)],
      [("7", .str "y"), ("c", .str "t")]] (by decide)).2.2.2 0 _ rfl
  refine ⟨out, h1, ?_, hown "b" (.str "x") (by decide) (by decide),
    hundef "u" (by decide),
    hlack "7" (by decide) (by decide) (by decide),
    hlack "c" (by decide) (by decide) (by decide)⟩
  have h2 : (mapRows (tabulateArray [[("b", .str "x"), ("u", .undefined)],
        [("7", .str "y"), ("c", .str "t")]] none))[0]?
      = some [("7", .str ""), ("b", .str "x"), ("u", .str ""), ("c", .str "")] := by decide
  rw [h2] at h1
  rw [← Option.some.inj h1]
  rfl

end CD

namespace Keypay

/-! ## Pagination with a failing page -/

/-- A turn of the loop whose GET gives `false` appends `false` to the result, and the next test
ends the loop. -/
theorem listEmployeesLoop_false_page {R : Type} (P : Platform (List R)) (st : State)
    (schedStr : String) (fuel page : Nat) (xs : List R) (emps : List (Emp R)) (log log1 : Log)
    (hxs : xs ≠ [])
    (hget : _apiGet P st "bus"
      ("/employee/unstructured" ++ ("?$top=100&$skip=" ++ toString (100 * page) ++ schedStr))
      none log = (.ok .sentinelFalse, log1)) :
    listEmployeesLoop P st schedStr (fuel + 2) (.parsed xs) emps page log
      = some (.ok (emps ++ [Emp.falseVal]), log1) := by
  rw [listEmployeesLoop_step P st schedStr (fuel + 1) page xs emps log log1 _ hxs hget,
    listEmployeesLoop_stop_false]
  rfl

/-- C14 (the code at a failing input): the probe is answered with a one-employee array and the
first 100-row page with status 500, so `_apiGet` gives `false` for that page. The loop has
already concatenated the page when it tests it: the result is the one-element list holding
`false`, after two fetch calls, and not the empty concatenation of the pages before the falsy
page. -/
theorem listEmployees_appends_false_page :
    listEmployeesByPayschedule failingPagePlatform readyState none 2 []
        = some (.ok [Emp.falseVal],
            [⟨"https://api.yourpayroll.com.au/api/v2/business/1234/employee/unstructured?$top=1",
                getOptions failingPagePlatform readyState⟩,
              ⟨"https://api.yourpayroll.com.au/api/v2/business/1234/employee/unstructured"
                  ++ "?$top=100&$skip=0",
                getOptions failingPagePlatform readyState⟩])
      ∧ ([Emp.falseVal] : List (Emp Nat)) ≠ [] := by
  constructor
  · rfl
  · decide

/-! ## The url of the request -/

theorem tryCallLoop_calls {J : Type} (P : Platform J) (url : String) (options : Options) :
    ∀ (left attempts : Nat) (log : Log), ∃ m, m ≤ left ∧ (0 < left → 0 < m)
      ∧ (tryCallLoop P url options left attempts log).2
        = log ++ List.replicate m ⟨url, options⟩ := by
  intro left
  induction left with
  | zero => intro attempts log; exact ⟨0, Nat.le_refl 0, fun h => h, by simp [tryCallLoop]⟩
  | succ l ih =>
    intro attempts log
    cases hf : P.fetch log.length url options with
    | some response =>
      exact ⟨1, by omega, fun _ => Nat.one_pos, by simp [tryCallLoop, hf]⟩
    | none =>
      obtain ⟨m, hm, _, hlog⟩ := ih (attempts + 1) (log ++ [⟨url, options⟩])
      refine ⟨m + 1, by omega, fun _ => Nat.succ_pos m, ?_⟩
      simp only [tryCallLoop, hf, hlog, List.append_assoc, List.singleton_append,
        ← List.replicate_succ]

/-- Every call of `_tryCall` issues between one and five fetches, all for its url and options. -/
theorem tryCall_calls {J : Type} (P : Platform J) (url : String) (options : Options)
    (log : Log) :
    ∃ m, 1 ≤ m ∧ m ≤ 5
      ∧ (_tryCall P url options log).2 = log ++ List.replicate m ⟨url, options⟩ := by
  obtain ⟨m, hm, hpos, hlog⟩ := tryCallLoop_calls P url options (maxAttempts - 0) 0 log
  exact ⟨m, hpos (by decide), hm, hlog⟩

theorem apiGet_calls {J : Type} (P : Platform J) (st : State) (urlType apiUrl base : String)
    (apiData : Option (List (String × QVal))) (log : Log)
    (hkey : falsy st.apiKey = false) (hbase : urlBaseGet st urlType = .ok base) :
    ∃ m, 1 ≤ m ∧ m ≤ 5
      ∧ (_apiGet P st urlType apiUrl apiData log).2
        = log ++ List.replicate m ⟨concatUrl P base apiUrl apiData, getOptions P st⟩ := by
  obtain ⟨m, h1, h5, hlog⟩ := tryCall_calls P (concatUrl P base apiUrl apiData)
    (getOptions P st) log
  refine ⟨m, h1, h5, ?_⟩
  rw [← hlog]
  unfold _apiGet
  simp only [hkey, hbase]
  rcases _tryCall P (concatUrl P base apiUrl apiData) (getOptions P st) log with ⟨res, log1⟩
  cases res with
  | error e => rfl
  | ok response =>
    by_cases hc : response.code = 200
    · simp only [hc, if_true]
      cases P.jsonParse response.content <;> rfl
    · simp [hc]

theorem apiPost_calls {J : Type} (P : Platform J) (st : State) (urlType apiUrl base : String)
    (body : J) (apiData : Option (List (String × QVal))) (log : Log)
    (hkey : falsy st.apiKey = false) (hbase : urlBasePostPut st urlType = .ok base) :
    ∃ m, 1 ≤ m ∧ m ≤ 5
      ∧ (_apiPost P st urlType apiUrl body apiData log).2
        = log ++ List.replicate m ⟨concatUrl P base apiUrl apiData, postOptions P st body⟩ := by
  obtain ⟨m, h1, h5, hlog⟩ := tryCall_calls P (concatUrl P base apiUrl apiData)
    (postOptions P st body) log
  refine ⟨m, h1, h5, ?_⟩
  rw [← hlog]
  unfold _apiPost
  simp only [hkey, hbase]
  rcases _tryCall P (concatUrl P base apiUrl apiData) (postOptions P st body) log
    with ⟨res, log1⟩
  cases res with
  | error e => rfl
  | ok response => simp

theorem apiPut_calls {J : Type} (P : Platform J) (st : State) (urlType apiUrl base : String)
    (body : J) (apiData : Option (List (String × QVal))) (log : Log)
    (hkey : falsy st.apiKey = false) (hbase : urlBasePostPut st urlType = .ok base) :
    ∃ m, 1 ≤ m ∧ m ≤ 5
      ∧ (_apiPut P st urlType apiUrl body apiData log).2
        = log ++ List.replicate m ⟨concatUrl P base apiUrl apiData, putOptions P st body⟩ := by
  obtain ⟨m, h1, h5, hlog⟩ := tryCall_calls P (concatUrl P base apiUrl apiData)
    (putOptions P st body) log
  refine ⟨m, h1, h5, ?_⟩
  rw [← hlog]
  unfold _apiPut
  simp only [hkey, hbase]
  rcases _tryCall P (concatUrl P base apiUrl apiData) (putOptions P st body) log
    with ⟨res, log1⟩
  cases res with
  | error e => rfl
  | ok response => simp

/-- The chain of `_apiGet` chooses the base the selector stands for. -/
theorem urlBaseGet_of_selectorBase (st : State) (urlType base : String)
    (hbus : falsy st.businessId = false) (h : selectorBase st urlType = some base) :
    urlBaseGet st urlType = .ok base := by
  unfold selectorBase at h
  unfold urlBaseGet
  by_cases h1 : urlType = "bus"
  · subst h1
    simp only [if_true] at h
    simp [hbus, Option.some.inj h]
  · by_cases h2 : urlType = "noId"
    · subst h2
      simp only [h1, if_false, if_true] at h
      rw [← Option.some.inj h]
      rfl
    · by_cases h3 : urlType = "ess"
      · subst h3
        simp only [h1, h2, if_false, if_true] at h
        rw [← Option.some.inj h]
        rfl
      · simp [h1, h2, h3] at h

/-- The chain of `_apiPost` and `_apiPut` chooses the base the selector stands for, except for
`noId`. -/
theorem urlBasePostPut_of_selectorBase (st : State) (urlType base : String)
    (hbus : falsy st.businessId = false) (h : selectorBase st urlType = some base)
    (hno : urlType ≠ "noId") :
    urlBasePostPut st urlType = .ok base := by
  unfold selectorBase at h
  unfold urlBasePostPut
  by_cases h1 : urlType = "bus"
  · subst h1
    simp only [if_true] at h
    simp [hbus, Option.some.inj h]
  · by_cases h3 : urlType = "ess"
    · subst h3
      simp only [h1, hno, if_false, if_true] at h
      rw [← Option.some.inj h]
      rfl
    · simp [h1, hno, h3] at h

/-- C15 (as stated, refuted): with credentials set, `_apiPost` and `_apiPut` do not accept the
selector `noId`: they throw the invalid-URL-type error and issue no fetch. -/
theorem apiPost_apiPut_reject_noId :
    _apiPost answeringPlatform readyState "noId" "" jsonA1 none []
        = (.error "apiGet called with invalid URL type: noId", [])
      ∧ _apiPut answeringPlatform readyState "noId" "" jsonA1 none []
        = (.error "apiGet called with invalid URL type: noId", []) :=
  ⟨rfl, rfl⟩

/-- C15 (amended): with credentials set, every fetch a primitive issues (between one and five)
is for the base the selector stands for, followed by the resource path and, when query data is
given, by `?` and the serialized query. `_apiGet` accepts `bus`, `noId` and `ess`; `_apiPost`
and `_apiPut` accept `bus` and `ess` and throw the invalid-URL-type error for `noId`; any other
selector makes all three throw that error. No fetch is issued when the error is thrown. -/
theorem request_url_from_selector {J : Type} (P : Platform J) (st : State)
    (urlType apiUrl : String) (body : J) (apiData : Option (List (String × QVal))) (log : Log)
    (hkey : falsy st.apiKey = false) (hbus : falsy st.businessId = false) :
    (∀ base, selectorBase st urlType = some base →
        ∃ m, 1 ≤ m ∧ m ≤ 5 ∧ (_apiGet P st urlType apiUrl apiData log).2
          = log ++ List.replicate m ⟨concatUrl P base apiUrl apiData, getOptions P st⟩)
      ∧ (∀ base, selectorBase st urlType = some base → urlType ≠ "noId" →
        (∃ m, 1 ≤ m ∧ m ≤ 5 ∧ (_apiPost P st urlType apiUrl body apiData log).2
          = log ++ List.replicate m ⟨concatUrl P base apiUrl apiData, postOptions P st body⟩)
        ∧ (∃ m, 1 ≤ m ∧ m ≤ 5 ∧ (_apiPut P st urlType apiUrl body apiData log).2
          = log ++ List.replicate m ⟨concatUrl P base apiUrl apiData, putOptions P st body⟩))
      ∧ (urlType = "noId" →
        _apiPost P st urlType apiUrl body apiData log = (.error (urlTypeError urlType), log)
        ∧ _apiPut P st urlType apiUrl body apiData log = (.error (urlTypeError urlType), log))
      ∧ (selectorBase st urlType = none →
        _apiGet P st urlType apiUrl apiData log = (.error (urlTypeError urlType), log)
        ∧ _apiPost P st urlType apiUrl body apiData log = (.error (urlTypeError urlType), log)
        ∧ _apiPut P st urlType apiUrl body apiData log = (.error (urlTypeError urlType), log))
      ∧ (∀ base, concatUrl P base apiUrl none = base ++ apiUrl)
      ∧ (∀ base obj, concatUrl P base apiUrl (some obj)
          = base ++ apiUrl ++ "?" ++ _convertObjToUrl P obj) := by
  refine ⟨?_, ?_, ?_, ?_, fun _ => rfl, fun _ _ => rfl⟩
  · intro base hsel
    exact apiGet_calls P st urlType apiUrl base apiData log hkey
      (urlBaseGet_of_selectorBase st urlType base hbus hsel)
  · intro base hsel hno
    have hb := urlBasePostPut_of_selectorBase st urlType base hbus hsel hno
    exact ⟨apiPost_calls P st urlType apiUrl base body apiData log hkey hb,
      apiPut_calls P st urlType apiUrl base body apiData log hkey hb⟩
  · intro hno
    subst hno
    have hb : urlBasePostPut st "noId" = .error (urlTypeError "noId") := rfl
    constructor
    · unfold _apiPost
      simp only [hkey, hb]
      rfl
    · unfold _apiPut
      simp only [hkey, hb]
      rfl
  · intro hnone
    have h1 : ¬ urlType = "bus" := by
      intro e
      simp [selectorBase, e] at hnone
    have h2 : ¬ urlType = "noId" := by
      intro e
      simp [selectorBase, e] at hnone
    have h3 : ¬ urlType = "ess" := by
      intro e
      simp [selectorBase, e] at hnone
    have hg : urlBaseGet st urlType = .error (urlTypeError urlType) := by
      simp [urlBaseGet, h1, h2, h3]
    have hp : urlBasePostPut st urlType = .error (urlTypeError urlType) := by
      simp [urlBasePostPut, h1, h3]
    refine ⟨?_, ?_, ?_⟩
    · unfold _apiGet
      simp only [hkey, hg]
      rfl
    · unfold _apiPost
      simp only [hkey, hp]
      rfl
    · unfold _apiPut
      simp only [hkey, hp]
      rfl

theorem request_url_from_selector_witness :
    (∃ m, 1 ≤ m ∧ m ≤ 5 ∧ (_apiGet answeringPlatform readyState "noId" "" none oneCall).2
        = oneCall ++ List.replicate m
            ⟨"https://api.yourpayroll.com.au/api/v2/business/",
              getOptions answeringPlatform readyState⟩)
      ∧ (∃ m, 1 ≤ m ∧ m ≤ 5
        ∧ (_apiPost answeringPlatform readyState "bus" "/location" jsonA1 none oneCall).2
          = oneCall ++ List.replicate m
              ⟨"https://api.yourpayroll.com.au/api/v2/business/1234/location",
                postOptions answeringPlatform readyState jsonA1⟩)
      ∧ _apiPut answeringPlatform readyState "noId" "/location" jsonA1 none oneCall
        = (.error (urlTypeError "noId"), oneCall)
      ∧ _apiGet answeringPlatform readyState "business" "/payrun" none oneCall
        = (.error (urlTypeError "business"), oneCall) :=
  ⟨(request_url_from_selector answeringPlatform readyState "noId" "" jsonA1 none oneCall
      rfl rfl).1 _ rfl,
    ((request_url_from_selector answeringPlatform readyState "bus" "/location" jsonA1 none
      oneCall rfl rfl).2.1 _ rfl (by decide)).1,
    ((request_url_from_selector answeringPlatform readyState "noId" "/location" jsonA1 none
      oneCall rfl rfl).2.2.1 rfl).2,
    ((request_url_from_selector answeringPlatform readyState "business" "/payrun" jsonA1 none
      oneCall rfl rfl).2.2.2.1 rfl).1⟩

end Keypay
